import Mathlib

/-!
Verification of the `tricc` diagram-parser (`src/diagram-parser/src/questionnaire_parser/`)
against its natural-language specification.

The Python modules relevant to the checked claims are shallowly embedded below:

* `utils/validation.py`        — severity levels, validation modes, the collector
* `utils/edge_logic.py`        — `EdgeLogicCalculator` and its helpers
* `core/graph_converter.py`    — rectangle classification, yes/no conversion,
                                 color ranges, the help/hint absorption pass
* `models/diagram.py`          — `Edge.validate_endpoints`, `Diagram.validate_structure`
* `utils/edge_error_handler.py`— the edge error handler used during ingestion

Modelling conventions: Python `str` is `String`; `Optional[str]` is `Option String`;
Python truthiness of a string (`if s:`) is `s ≠ None ∧ s ≠ ""`; Python floats that
arise from parsing decimal literals or from averaging small integers are modelled as
exact rationals (`ℚ`) — on the integer inputs appearing here the comparisons the code
performs are never within the double-precision rounding error of a boundary, so the
rational model decides them identically.  Timestamps and logging are not modelled;
neither influences any claim.
-/

/-! ## Validation collector (utils/validation.py) -/

/-- `ValidationSeverity` from utils/validation.py. -/
inductive ValidationSeverity where
  | critical
  | error
  | warning
deriving DecidableEq, Repr

/-- `ValidationLevel` from utils/validation.py. -/
inductive ValidationLevel where
  | strict
  | normal
  | lenient
deriving DecidableEq, Repr

/-- `ValidationResult` from utils/validation.py (the `timestamp` field, set from the
wall clock and used only for report formatting, is not modelled). -/
structure ValidationResult where
  severity : ValidationSeverity
  message : String
  elementId : Option String := none
  elementType : Option String := none
  fieldName : Option String := none
deriving DecidableEq, Repr

/-- `ValidationCollector._handle_result` (utils/validation.py lines 127-141), reduced
to the decision of whether it raises `ValueError`: `True` means the Python call raises. -/
def handle_result_raises (lvl : ValidationLevel) (sev : ValidationSeverity) : Bool :=
  if lvl = .strict then
    decide (sev = .critical ∨ sev = .error)
  else if lvl = .normal then
    decide (sev = .critical)
  else
    false

/-- `ValidationCollector.add_result` (utils/validation.py lines 69-97): builds the
result, appends it to `self.results`, then `_handle_result` decides whether to raise.
Returns the updated results list together with the raise decision; the append happens
unconditionally before the raise, exactly as in the source. -/
def add_result (lvl : ValidationLevel) (results : List ValidationResult)
    (sev : ValidationSeverity) (message : String) (elementId : Option String)
    (elementType : Option String) (fieldName : Option String) :
    List ValidationResult × Bool :=
  let r : ValidationResult :=
    { severity := sev, message := message, elementId := elementId,
      elementType := elementType, fieldName := fieldName }
  (results ++ [r], handle_result_raises lvl sev)

/-- `ValidationCollector.get_results_by_severity` (utils/validation.py lines 237-246). -/
def get_results_by_severity (results : List ValidationResult)
    (sev : ValidationSeverity) : List ValidationResult :=
  results.filter (fun r => r.severity = sev)

/-- Severity count as computed in `_write_report_summary` (utils/validation.py
lines 199-201): the length of the severity-filtered results. -/
def severity_count (results : List ValidationResult) (sev : ValidationSeverity) : Nat :=
  (results.filter (fun r => r.severity = sev)).length

/-! ## Operator negation (utils/edge_logic.py `_negate_operator`) -/

/-- `EdgeLogicCalculator._negate_operator` (utils/edge_logic.py lines 182-199):
`negation_map.get(operator, operator)` over the fixed six-entry map. -/
def negate_operator (op : String) : String :=
  if op = "=" then "!="
  else if op = "!=" then "="
  else if op = ">" then "<="
  else if op = "<" then ">="
  else if op = ">=" then "<"
  else if op = "<=" then ">"
  else op

/-! ## Theorems for C6, C9, C10 -/

/-- C6: for every validation mode and severity, `ValidationCollector.add_result`
raises if and only if the mode is STRICT and the severity is ERROR or CRITICAL, or
the mode is NORMAL and the severity is CRITICAL; in LENIENT mode it never raises. -/
theorem add_result_raises_iff (lvl : ValidationLevel) (results : List ValidationResult)
    (sev : ValidationSeverity) (message : String) (elementId elementType fieldName : Option String) :
    ((add_result lvl results sev message elementId elementType fieldName).2 = true ↔
      (lvl = .strict ∧ (sev = .error ∨ sev = .critical)) ∨
        (lvl = .normal ∧ sev = .critical)) ∧
    (lvl = .lenient →
      (add_result lvl results sev message elementId elementType fieldName).2 = false) := by
  cases lvl <;> cases sev <;>
    simp [add_result, handle_result_raises]

/-- C9: `add_result` appends the `ValidationResult` to the collector's results before
the mode-dependent exception decision, so even when the call raises, the aborting
issue is present in the results, in every later severity count, and in the
severity-filtered report sections. -/
theorem add_result_appends_before_raise (lvl : ValidationLevel)
    (results : List ValidationResult) (sev : ValidationSeverity) (message : String)
    (elementId elementType fieldName : Option String) :
    (add_result lvl results sev message elementId elementType fieldName).1 =
      results ++ [{ severity := sev, message := message, elementId := elementId,
                    elementType := elementType, fieldName := fieldName }] ∧
    ({ severity := sev, message := message, elementId := elementId,
       elementType := elementType, fieldName := fieldName } : ValidationResult) ∈
      (add_result lvl results sev message elementId elementType fieldName).1 ∧
    (∀ s : ValidationSeverity,
      severity_count (add_result lvl results sev message elementId elementType fieldName).1 s =
        severity_count results s + (if s = sev then 1 else 0)) ∧
    get_results_by_severity
        (add_result lvl results sev message elementId elementType fieldName).1 sev =
      get_results_by_severity results sev ++
        [{ severity := sev, message := message, elementId := elementId,
           elementType := elementType, fieldName := fieldName }] ∧
    (add_result lvl results sev message elementId elementType fieldName).2 =
      handle_result_raises lvl sev := by
  refine ⟨rfl, ?_, ?_, ?_, rfl⟩
  · simp [add_result]
  · intro s
    by_cases h : s = sev <;>
      simp [add_result, severity_count, List.filter_append, h, eq_comm]
  · simp [add_result, get_results_by_severity, List.filter_append]

/-- C10: `_negate_operator` is an involution — negating any operator string twice
returns the original; the six comparison operators swap in pairs and every other
string is returned unchanged by a single negation. -/
theorem negate_operator_involutive :
    (∀ op : String, negate_operator (negate_operator op) = op) ∧
    (negate_operator "=" = "!=" ∧ negate_operator "!=" = "=" ∧
     negate_operator ">" = "<=" ∧ negate_operator "<=" = ">" ∧
     negate_operator "<" = ">=" ∧ negate_operator ">=" = "<") ∧
    (∀ op : String, op ≠ "=" → op ≠ "!=" → op ≠ ">" → op ≠ "<" → op ≠ ">=" → op ≠ "<=" →
      negate_operator op = op) := by
  refine ⟨?_, by decide, ?_⟩
  · intro op
    by_cases h1 : op = "="
    · subst h1; rfl
    by_cases h2 : op = "!="
    · subst h2; rfl
    by_cases h3 : op = ">"
    · subst h3; rfl
    by_cases h4 : op = "<"
    · subst h4; rfl
    by_cases h5 : op = ">="
    · subst h5; rfl
    by_cases h6 : op = "<="
    · subst h6; rfl
    have h : negate_operator op = op := by
      simp [negate_operator, h1, h2, h3, h4, h5, h6]
    rw [h, h]
  · intro op h1 h2 h3 h4 h5 h6
    simp [negate_operator, h1, h2, h3, h4, h5, h6]

/-- Witness for C10: the third conjunct's hypotheses are satisfiable — on the
non-operator string "contains" a single negation is the identity. -/
theorem negate_operator_involutive_witness :
    negate_operator (negate_operator "contains") = "contains" ∧
    negate_operator "contains" = "contains" :=
  ⟨negate_operator_involutive.1 "contains",
   negate_operator_involutive.2.2 "contains" (by decide) (by decide) (by decide)
     (by decide) (by decide) (by decide)⟩

/-! ## Edge logic (utils/edge_logic.py) -/

/-- A Python value as it appears in an `EdgeLogic` attribute dictionary: the code
stores strings, booleans, ints, floats (modelled as exact rationals) and `None`. -/
inductive PyVal where
  | str (s : String)
  | bool (b : Bool)
  | int (n : Int)
  | float (q : ℚ)
  | nullv
deriving DecidableEq, Repr

/-- `EdgeLogic` objects of type `'condition'` from utils/edge_logic.py.  The source
builds them with two different keyword spellings — `node=`/`operator=` in the
select branches and `variable=`/`operation=` in the flag and numeric branches — so
the embedding keeps the two apart.  (`'operator'`-typed AND/OR compositions are not
needed by any checked claim.) -/
inductive EdgeLogic where
  /-- `EdgeLogic("condition", node=…, operator=…, value=…)` -/
  | cnode (node : Option String) (operator : String) (value : PyVal)
  /-- `EdgeLogic("condition", variable=…, operation=…, value=…)`; the `variable`
  keyword argument is spelled `var` here because `variable` is reserved in Lean. -/
  | cvar (var : Option String) (operation : String) (value : PyVal)
deriving DecidableEq, Repr

/-- ASCII lower-casing of one character; the labels handled by the parser are
ASCII, where Python's `str.lower()` coincides with this map. -/
def ascii_lower (c : Char) : Char :=
  if 'A' ≤ c ∧ c ≤ 'Z' then Char.ofNat (c.toNat + 32) else c

/-- Python's `str.lower()` on the ASCII strings the code compares. -/
def py_lower (s : String) : String :=
  String.mk (s.data.map ascii_lower)

/-- Python truthiness of an `Optional[str]`: `None` and the empty string are falsy. -/
def py_truthy (o : Option String) : Bool :=
  match o with
  | none => false
  | some s => !s.data.isEmpty

/-- The value `option` contributes when stored as `value=option` with
`option : Optional[str]`. -/
def py_opt_val (o : Option String) : PyVal :=
  match o with
  | none => .nullv
  | some s => .str s

/-- The whitespace class of Python's regex `\s` and of `str.strip()` (ASCII). -/
def py_space (c : Char) : Bool :=
  c = ' ' ∨ c = '\t' ∨ c = '\n' ∨ c = '\r' ∨ c = '\x0b' ∨ c = '\x0c'

/-- Python's `str.strip()`: remove whitespace from both ends. -/
def py_strip (l : List Char) : List Char :=
  ((l.dropWhile py_space).reverse.dropWhile py_space).reverse

/-- `EdgeLogicCalculator._extract_option_from_label` (utils/edge_logic.py
lines 289-302): `re.search(r"\[(.*?)\]", label)`, returning the stripped group.
`.` does not match a newline, so a bracket whose closing `]` is preceded by a
newline fails at that position and the search resumes at later positions. -/
def bracket_scan : List Char → Option (List Char)
  | [] => none
  | ']' :: _ => some []
  | '\n' :: _ => none
  | c :: rest => (bracket_scan rest).map (fun l => c :: l)

/-- Search loop of `_extract_option_from_label`: find the leftmost `[` from which a
`]` is reachable without crossing a newline. -/
def extract_scan : List Char → Option (List Char)
  | [] => none
  | '[' :: rest =>
    match bracket_scan rest with
    | some content => some content
    | none => extract_scan rest
  | _ :: rest => extract_scan rest

/-- `_extract_option_from_label` itself: bracket content, stripped; `None` when no
bracketed text is found. -/
def extract_option_from_label (label : String) : Option String :=
  (extract_scan label.data).map (fun l => String.mk (py_strip l))

/-- First character class of the regex alternative `[=<>!]=`. -/
def op_class1 (c : Char) : Bool :=
  c = '=' ∨ c = '<' ∨ c = '>' ∨ c = '!'

/-- Digit-string to number, as `float(value_str)` reads consecutive decimal digits. -/
def digits_to_nat (ds : List Char) : Nat :=
  ds.foldl (fun a c => 10 * a + (c.toNat - 48)) 0

/-- The value part of the numeric-condition regex, `(\d+(?:\.\d+)?)`: a non-empty
greedy digit run, optionally followed by `.` and a second non-empty digit run.
Returns the exact rational the matched literal denotes. -/
def parse_value (l : List Char) : Option ℚ :=
  let ds := l.takeWhile (fun c => c.isDigit)
  if ds.isEmpty then none
  else
    match l.drop ds.length with
    | '.' :: r2 =>
      let fs := r2.takeWhile (fun c => c.isDigit)
      if fs.isEmpty then some (digits_to_nat ds)
      else some ((digits_to_nat ds : ℚ) + (digits_to_nat fs : ℚ) / ((10 : ℚ) ^ fs.length))
    | _ => some (digits_to_nat ds)

/-- `(?:\s*)(\d+(?:\.\d+)?)`: optional whitespace, then the numeric literal. -/
def trailing_number (l : List Char) : Option ℚ :=
  parse_value (l.dropWhile py_space)

/-- One attempt of the operator alternation `([=<>!]=|[<>])` at the current
position, including the regex backtracking from the failed two-character
alternative to the one-character alternative. -/
def try_op_at (l : List Char) : Option (String × ℚ) :=
  match l with
  | [] => none
  | c1 :: rest =>
    let two : Option (String × ℚ) :=
      match rest with
      | c2 :: rest2 =>
        if c2 = '=' ∧ op_class1 c1 then
          (trailing_number rest2).map (fun v => (String.mk [c1, c2], v))
        else none
      | [] => none
    match two with
    | some r => some r
    | none =>
      if c1 = '<' ∨ c1 = '>' then
        (trailing_number rest).map (fun v => (String.mk [c1], v))
      else none

/-- `re.search` over the whole pattern
`(.*?)(?:\s*)([=<>!]=|[<>])(?:\s*)(\d+(?:\.\d+)?)`: because the lazy prefix may be
empty, the leftmost match starts at the leftmost position where the operator
alternation (with a numeric literal after optional whitespace) succeeds. -/
def find_numeric : List Char → Option (String × ℚ)
  | [] => none
  | c :: rest =>
    match try_op_at (c :: rest) with
    | some r => some r
    | none => find_numeric rest

/-- `EdgeLogicCalculator._parse_numeric_condition` (utils/edge_logic.py
lines 260-287): regex search, then `float(value_str)` with whole numbers converted
to `int` (`value.is_integer()`). -/
def parse_numeric_condition (label : String) : Option (String × PyVal) :=
  match find_numeric label.data with
  | some (op, q) => some (op, if q.den = 1 then .int q.num else .float q)
  | none => none

/-- `EdgeLogicCalculator._select_one_logic` (utils/edge_logic.py lines 220-231). -/
def select_one_logic (nodeId : Option String) (opt : Option String)
    (edgeLabel : String) : Option EdgeLogic :=
  if py_lower edgeLabel = "yes" then
    some (.cnode nodeId "=" (py_opt_val opt))
  else if py_lower edgeLabel = "no" then
    some (.cnode nodeId "!=" (py_opt_val opt))
  else
    none

/-- `EdgeLogicCalculator._select_multiple_logic` (utils/edge_logic.py lines 233-235). -/
def select_multiple_logic (nodeId : Option String) (opt : Option String) : EdgeLogic :=
  .cnode nodeId "contains" (py_opt_val opt)

/-- `EdgeLogicCalculator._flag_logic` (utils/edge_logic.py lines 237-258). -/
def flag_logic (flagLabel : String) (edgeLabel : Option String) : Option EdgeLogic :=
  if !py_truthy edgeLabel ∨ py_lower (edgeLabel.getD "") = "yes" then
    some (.cvar (some "flags") "in" (.str flagLabel))
  else if py_lower (edgeLabel.getD "") = "no" then
    some (.cvar (some "flags") "not in" (.str flagLabel))
  else
    none

/-- `EdgeLogicCalculator.calculate_decision_point_logic` (utils/edge_logic.py
lines 91-180).  The second `elif reference_type == "select_multiple"` branch of the
source (lines 152-172, the `not contains` variant) is kept in place here exactly as
written; it is unreachable because the first branch with the identical condition
(lines 117-130) is tried earlier. -/
def calculate_decision_point_logic (referenceType decisionLabel edgeLabel : String)
    (referenceId : Option String) : Option EdgeLogic :=
  if referenceType = "flag" then
    flag_logic decisionLabel (some edgeLabel)
  else if referenceType = "select_one" then
    select_one_logic referenceId (some decisionLabel) edgeLabel
  else if referenceType = "select_multiple" then
    match extract_option_from_label decisionLabel with
    | some opt =>
      if !opt.data.isEmpty then
        some (select_multiple_logic referenceId (some opt))
      else
        some (.cnode referenceId "=" (.bool (py_lower edgeLabel = "yes")))
    | none => some (.cnode referenceId "=" (.bool (py_lower edgeLabel = "yes")))
  else if referenceType = "numeric" then
    match parse_numeric_condition decisionLabel with
    | some (op, v) =>
      some (.cvar referenceId
        (if py_lower edgeLabel = "no" then negate_operator op else op) v)
    | none => some (.cvar referenceId "=" (.bool (py_lower edgeLabel = "yes")))
  else if referenceType = "select_multiple" then
    -- dead code in the source: shadowed by the earlier identical condition
    match extract_option_from_label decisionLabel with
    | some opt =>
      if !opt.data.isEmpty ∧ py_lower edgeLabel = "yes" then
        some (.cnode referenceId "contains" (.str opt))
      else if !opt.data.isEmpty ∧ py_lower edgeLabel = "no" then
        some (.cnode referenceId "not contains" (.str opt))
      else
        some (.cnode referenceId "=" (.bool (py_lower edgeLabel = "yes")))
    | none => some (.cnode referenceId "=" (.bool (py_lower edgeLabel = "yes")))
  else
    some (.cnode referenceId "=" (.bool (py_lower edgeLabel = "yes")))

/-- `EdgeLogicCalculator.calculate_edge_logic` (utils/edge_logic.py lines 62-89). -/
def calculate_edge_logic (nodeLabel nodeType nodeId : String)
    (edgeLabel : String) (edgeOption : Option String) : Option EdgeLogic :=
  if nodeType = "select_one" then
    select_one_logic (some nodeId) edgeOption edgeLabel
  else if nodeType = "select_multiple" then
    some (select_multiple_logic (some nodeId) edgeOption)
  else if nodeType = "flag" then
    flag_logic nodeLabel none
  else
    none

/-! ## Theorems for C1 and the C4 counterexample -/

/-- C1: for a decision point referencing a `select_multiple` node, when the decision
label carries a bracketed token the code returns `contains` for *both* edge labels —
the edge label is ignored, so the "No" edge never yields `not contains` as the claim
states; the branch implementing `not contains` (utils/edge_logic.py lines 152-172)
is unreachable dead code.  When no bracket is present the yes/no fallback of the
claim does hold. -/
theorem select_multiple_decision_ignores_edge_label :
    calculate_decision_point_logic "select_multiple" "Symptom [cough]" "Yes" (some "ref") =
      some (.cnode (some "ref") "contains" (.str "cough")) ∧
    calculate_decision_point_logic "select_multiple" "Symptom [cough]" "No" (some "ref") =
      some (.cnode (some "ref") "contains" (.str "cough")) ∧
    calculate_decision_point_logic "select_multiple" "Symptom [cough]" "No" (some "ref") ≠
      some (.cnode (some "ref") "not contains" (.str "cough")) ∧
    calculate_decision_point_logic "select_multiple" "Symptom [cough]" "No" (some "ref") ≠
      some (.cnode (some "ref") "not-contains" (.str "cough")) ∧
    calculate_decision_point_logic "select_multiple" "Symptom without brackets" "No" (some "ref") =
      some (.cnode (some "ref") "=" (.bool false)) ∧
    calculate_decision_point_logic "select_multiple" "Symptom without brackets" "Yes" (some "ref") =
      some (.cnode (some "ref") "=" (.bool true)) := by
  refine ⟨?_, ?_, ?_, ?_, ?_, ?_⟩ <;> decide

/-- C4 counterexample: the claim includes `=` among the parseable comparison
operators, but the regex alternation `[=<>!]=|[<>]` never matches a lone `=` —
`"Age = 5"` fails to parse and falls back to the boolean yes/no condition instead of
yielding `Condition(ref, "=", 5)`. -/
theorem numeric_decision_eq_operator_not_parsed :
    parse_numeric_condition "Age = 5" = none ∧
    calculate_decision_point_logic "numeric" "Age = 5" "Yes" (some "ref") =
      some (.cvar (some "ref") "=" (.bool true)) ∧
    calculate_decision_point_logic "numeric" "Age = 5" "Yes" (some "ref") ≠
      some (.cvar (some "ref") "=" (.int 5)) := by
  refine ⟨?_, ?_, ?_⟩ <;> decide

/-! ## Color ranges and rectangle classification (core/graph_converter.py) -/

/-- Value of one lower-case hexadecimal digit, as `int(…, 16)` reads it (the color
string has been lower-cased before parsing). -/
def hex_digit_val (c : Char) : Option Nat :=
  if '0' ≤ c ∧ c ≤ '9' then some (c.toNat - 48)
  else if 'a' ≤ c ∧ c ≤ 'f' then some (c.toNat - 87)
  else none

/-- `int(color[i:i+2], 16)`: two hexadecimal digits; `none` models the
`ValueError` the source catches. -/
def hex_pair (c1 c2 : Char) : Option Nat := do
  let h1 ← hex_digit_val c1
  let h2 ← hex_digit_val c2
  pure (16 * h1 + h2)

/-- The channel extraction of `DAGConverter._is_color_in_range`
(core/graph_converter.py lines 214-220): each channel defaults to 0 when the
string is too short, and any failed hex parse aborts the whole extraction. -/
def parse_channels (l : List Char) : Option (Nat × Nat × Nat) := do
  let r ← if l.length ≥ 2 then hex_pair (l.getD 0 ' ') (l.getD 1 ' ') else pure 0
  let g ← if l.length ≥ 4 then hex_pair (l.getD 2 ' ') (l.getD 3 ' ') else pure 0
  let b ← if l.length ≥ 6 then hex_pair (l.getD 4 ' ') (l.getD 5 ' ') else pure 0
  pure (r, g, b)

/-- One comparison of the grey branch: `abs(x - avg) <= 10` with
`avg = (r + g + b) / 3`.  The float comparison is modelled exactly by multiplying
through by the positive denominator 3: `|3x - (r+g+b)| ≤ 30` over `ℤ`.  On channel
values 0..255 the double-precision comparison is never within rounding error of
the boundary (the distance of `|x - avg|` from 10 is 0 or at least 1/3), so the
two tests decide identically; `within_avg_ten_iff_rat` below records the
equivalence with the rational form. -/
def within_avg_ten (x r g b : Nat) : Bool :=
  decide (|3 * (x : ℤ) - ((r : ℤ) + (g : ℤ) + (b : ℤ))| ≤ 30)

/-- The integer form of the grey comparison agrees with the rational
`|x - (r+g+b)/3| ≤ 10` the source computes in floats. -/
theorem within_avg_ten_iff_rat (x r g b : Nat) :
    within_avg_ten x r g b = true ↔
      |(x : ℚ) - ((r : ℚ) + (g : ℚ) + (b : ℚ)) / 3| ≤ 10 := by
  rw [within_avg_ten, decide_eq_true_iff]
  constructor
  · intro h
    obtain ⟨h1, h2⟩ := abs_le.mp h
    have h1' : (-30 : ℚ) ≤ 3 * (x : ℚ) - ((r : ℚ) + (g : ℚ) + (b : ℚ)) := by
      exact_mod_cast h1
    have h2' : 3 * (x : ℚ) - ((r : ℚ) + (g : ℚ) + (b : ℚ)) ≤ 30 := by
      exact_mod_cast h2
    rw [abs_le]
    constructor <;> linarith
  · intro h
    obtain ⟨h1, h2⟩ := abs_le.mp h
    rw [abs_le]
    constructor
    · have h1' : (-30 : ℚ) ≤ 3 * (x : ℚ) - ((r : ℚ) + (g : ℚ) + (b : ℚ)) := by
        linarith
      exact_mod_cast h1'
    · have h2' : 3 * (x : ℚ) - ((r : ℚ) + (g : ℚ) + (b : ℚ)) ≤ 30 := by
        linarith
      exact_mod_cast h2'

/-- The per-name range tests of `_is_color_in_range` (core/graph_converter.py
lines 222-244).  In the grey branch the source compares `abs(r - avg)` twice and
never `abs(b - avg)`; the embedding reproduces that faithfully. -/
def color_range_test (colorName : String) (r g b : Nat) : Bool :=
  if colorName = "red" then decide (r > 180 ∧ g < 100 ∧ b < 100)
  else if colorName = "green" then decide (r < 150 ∧ g > 150 ∧ b < 150)
  else if colorName = "blue" then decide (r < 100 ∧ g < 150 ∧ b > 180)
  else if colorName = "grey" ∨ colorName = "gray" then
    within_avg_ten r r g b && within_avg_ten g r g b && within_avg_ten r r g b
  else if colorName = "yellow" then decide (r > 180 ∧ g > 180 ∧ b < 100)
  else if colorName = "orange" then decide (r > 180 ∧ (100 < g ∧ g < 180) ∧ b < 100)
  else false

/-- `DAGConverter._is_color_in_range` (core/graph_converter.py lines 189-244):
normalize (lower-case, drop a leading `#`, expand 3-digit hex), extract channels,
then apply the named range test; missing or unparseable colors yield `False`. -/
def is_color_in_range (color : Option String) (colorName : String) : Bool :=
  match color with
  | none => false
  | some c0 =>
    if c0.data.isEmpty then false
    else
      let l0 := (py_lower c0).data
      let l1 := if l0.headD ' ' = '#' then l0.tail else l0
      let l2 := if l1.length = 3 then l1.flatMap (fun c => [c, c]) else l1
      match parse_channels l2 with
      | none => false
      | some (r, g, b) => color_range_test colorName r g b

/-- Modelled from the spec: "grey: all three channels within 10 of their mean" —
the spec-side predicate the grey branch is claimed to implement. -/
def grey_range_spec (r g b : Nat) : Prop :=
  |(r : ℚ) - ((r : ℚ) + (g : ℚ) + (b : ℚ)) / 3| ≤ 10 ∧
  |(g : ℚ) - ((r : ℚ) + (g : ℚ) + (b : ℚ)) / 3| ≤ 10 ∧
  |(b : ℚ) - ((r : ℚ) + (g : ℚ) + (b : ℚ)) / 3| ≤ 10

/-- C5: the grey color-range test is claimed to hold iff all three channels lie
within 10 of their mean, but the source checks the red channel twice and never the
blue one: `#646478` (r=100, g=100, b=120) passes the code's test although the blue
channel is 40/3 > 10 away from the mean.  The missing/unparseable cases of the
claim do hold. -/
theorem grey_range_ignores_blue_channel :
    parse_channels ("646478".data) = some (100, 100, 120) ∧
    is_color_in_range (some "#646478") "grey" = true ∧
    ¬ grey_range_spec 100 100 120 ∧
    (∀ colorName : String, is_color_in_range none colorName = false) ∧
    is_color_in_range (some "#zzz") "grey" = false := by
  refine ⟨by decide, by decide, ?_, ?_, by decide⟩
  · intro h
    obtain ⟨h1, h2⟩ := abs_le.mp h.2.2
    norm_num at h2
  · intro colorName
    rfl

/-- The yes/no test on an outgoing edge label used by
`DAGConverter._classify_rectangle_node` (core/graph_converter.py lines 137-140):
`data.get("label", "").lower() in ("yes", "no")`. -/
def yes_no_label (l : String) : Bool :=
  decide (py_lower l = "yes" ∨ py_lower l = "no")

/-- `DAGConverter._classify_rectangle_node` (core/graph_converter.py
lines 130-175), as a function of the structural context: returns the assigned
`type` together with the optional `severity` attribute. -/
def classify_rectangle_node (rounded : Bool) (fillColor : Option String)
    (incomingCount : Nat) (outgoingLabels : List String) : String × Option String :=
  if outgoingLabels ≠ [] ∧ outgoingLabels.all yes_no_label then
    ("select_one_yesno", none)
  else if incomingCount = 0 ∧ is_color_in_range fillColor "green" then
    ("help", none)
  else if incomingCount = 0 ∧ is_color_in_range fillColor "grey" then
    ("hint", none)
  else if rounded then
    if is_color_in_range fillColor "red" then ("diagnosis", some "SEVERE")
    else if is_color_in_range fillColor "orange" ∨ is_color_in_range fillColor "yellow" then
      ("diagnosis", some "MODERATE")
    else if is_color_in_range fillColor "green" then ("diagnosis", some "BENIGN")
    else ("calculate", none)
  else
    ("note", none)

/-! ## Yes/No conversion and the edge-logic pass (core/graph_converter.py) -/

/-- A synthesized option entry `{"id": …, "label": …, "option": …}` from
`_convert_select_one_yesno`. -/
structure YOption where
  oid : String
  olabel : String
  ooption : String
deriving DecidableEq, Repr

/-- A node of the converter's working graph, with the attributes the conversion
and edge-logic passes read. -/
structure YNode where
  nid : String
  ntype : String
  nlabel : String := ""
  nname : Option String := none
  noptions : List YOption := []
deriving DecidableEq, Repr

/-- An edge of the converter's working graph. -/
structure YEdge where
  esrc : String
  etgt : String
  eid : String
  elabel : String := ""
  eoption : Option String := none
  elogic : Option EdgeLogic := none
deriving DecidableEq, Repr

/-- The converter's working graph (a NetworkX `DiGraph` restricted to the
attributes these passes touch). -/
structure YGraph where
  nodes : List YNode
  edges : List YEdge
deriving DecidableEq, Repr

/-- Node lookup by id. -/
def YGraph.findNode (g : YGraph) (i : String) : Option YNode :=
  g.nodes.find? (fun n => n.nid == i)

/-- Edge lookup by edge id. -/
def YGraph.findEdge (g : YGraph) (i : String) : Option YEdge :=
  g.edges.find? (fun e => e.eid == i)

/-- The per-edge test of `_convert_select_one_yesno` (core/graph_converter.py
lines 291-295): `edge_label = label.strip().lower()`, accepted when it is
`yes`/`no` and the edge id is non-empty; returns the accepted label. -/
def yesno_edge_opt (e : YEdge) : Option String :=
  let lbl := py_lower (String.mk (py_strip e.elabel.data))
  if (lbl = "yes" ∨ lbl = "no") ∧ e.eid ≠ "" then some lbl else none

/-- `DAGConverter._convert_select_one_yesno` (core/graph_converter.py
lines 279-306): every `select_one_yesno` node becomes `select_one` and collects a
synthesized option per accepted outgoing edge; each accepted edge gains an
`option` attribute equal to its stripped, lower-cased label. -/
def convert_select_one_yesno (g : YGraph) : YGraph :=
  { nodes := g.nodes.map (fun n =>
      if n.ntype = "select_one_yesno" then
        { n with
          ntype := "select_one",
          noptions := (g.edges.filter (fun e => e.esrc == n.nid)).filterMap
            (fun e => (yesno_edge_opt e).map
              (fun lbl => ⟨e.eid ++ "_" ++ lbl, lbl, lbl⟩)) }
      else n),
    edges := g.edges.map (fun e =>
      match g.findNode e.esrc with
      | some n =>
        if n.ntype = "select_one_yesno" then
          match yesno_edge_opt e with
          | some lbl => { e with eoption := some lbl }
          | none => e
        else e
      | none => e) }

/-- `DAGConverter._calculate_edge_logic` (core/graph_converter.py lines 657-717):
attach logic to every edge from its source node's type; `note`, `numeric`, `text`,
`help`, `hint` sources are skipped; `decision_point` sources resolve their
reference by name (excluding decision points) and fall back to the external
flag/numeric registries. -/
def calc_edge_logic_pass (g : YGraph) (externFlags externNums : List String) : YGraph :=
  { g with edges := g.edges.map (fun e =>
      match g.findNode e.esrc with
      | none => e
      | some n =>
        if n.ntype = "note" ∨ n.ntype = "numeric" ∨ n.ntype = "text" ∨
            n.ntype = "help" ∨ n.ntype = "hint" then e
        else
          let logic :=
            if n.ntype = "decision_point" then
              let referenceName := n.nname.getD ""
              let referenceId :=
                (g.nodes.find? (fun m =>
                  m.nname == some referenceName && m.ntype != "decision_point")).map
                  (fun m => m.nid)
              let referenceType :=
                match referenceId with
                | some rid => ((g.findNode rid).map (fun m => m.ntype)).getD ""
                | none =>
                  if externFlags.contains referenceName then "flag"
                  else if externNums.contains referenceName then "numeric"
                  else "unknown"
              calculate_decision_point_logic referenceType n.nlabel e.elabel referenceId
            else
              calculate_edge_logic n.nlabel n.ntype n.nid e.elabel e.eoption
          match logic with
          | some lg => { e with elogic := some lg }
          | none => e) }

/-- The concrete rectangle node of the C3 scenario after initial conversion: a
`select_one_yesno` node with one "Yes"-labeled and one "No"-labeled outgoing edge. -/
def yesnoExampleGraph : YGraph :=
  { nodes := [⟨"q", "select_one_yesno", "Fever?", none, []⟩,
              ⟨"a", "note", "", none, []⟩,
              ⟨"b", "note", "", none, []⟩],
    edges := [⟨"q", "a", "e1", "Yes", none, none⟩,
              ⟨"q", "b", "e2", "No", none, none⟩] }

/-- C3: a rectangle whose two outgoing edges are labeled "Yes"/"No" classifies as
`select_one_yesno` and compiles to a `select_one` node with the two options
{yes, no}; each edge gains an `option` attribute equal to its lower-cased label and
the "Yes" edge receives logic `Condition(node, "=", "yes")` — all as claimed.  But
the "No" edge receives `Condition(node, "!=", "no")`, not the claimed
`Condition(node, "!=", "yes")`: `_select_one_logic` stores `value=option` and the
conversion set the option of the "No" edge to `"no"`, so the produced condition
("the answer differs from no", i.e. the answer is yes) denotes the Yes branch. -/
theorem yesno_no_edge_logic_value_is_no :
    classify_rectangle_node false none 1 ["Yes", "No"] = ("select_one_yesno", none) ∧
    (convert_select_one_yesno yesnoExampleGraph).findNode "q" =
      some ⟨"q", "select_one", "Fever?", none,
            [⟨"e1_yes", "yes", "yes"⟩, ⟨"e2_no", "no", "no"⟩]⟩ ∧
    ((convert_select_one_yesno yesnoExampleGraph).findEdge "e1").map (fun e => e.eoption) =
      some (some "yes") ∧
    ((convert_select_one_yesno yesnoExampleGraph).findEdge "e2").map (fun e => e.eoption) =
      some (some "no") ∧
    ((calc_edge_logic_pass (convert_select_one_yesno yesnoExampleGraph) [] []).findEdge
        "e1").map (fun e => e.elogic) =
      some (some (.cnode (some "q") "=" (.str "yes"))) ∧
    ((calc_edge_logic_pass (convert_select_one_yesno yesnoExampleGraph) [] []).findEdge
        "e2").map (fun e => e.elogic) =
      some (some (.cnode (some "q") "!=" (.str "no"))) ∧
    ((calc_edge_logic_pass (convert_select_one_yesno yesnoExampleGraph) [] []).findEdge
        "e2").map (fun e => e.elogic) ≠
      some (some (.cnode (some "q") "!=" (.str "yes"))) := by
  refine ⟨by decide, by decide, by decide, by decide, by decide, by decide, by decide⟩

/-! ## Diagram model validation (models/diagram.py) -/

/-- `ShapeType` from models/diagram.py. -/
inductive DShape where
  | rectangle
  | hexagon
  | ellipse
  | rhombus
  | callout
  | offpage
  | list
deriving DecidableEq, Repr

/-- `ElementMetadata` restricted to the field `validate_structure` reads
(`numeric_constraints` is irrelevant to structural validation). -/
structure DMeta where
  mname : Option String := none
deriving DecidableEq, Repr

/-- A `Node` of the diagram model, restricted to the attributes
`validate_structure` reads; `options` holds the option ids of a `list` node
(`None` for non-list nodes). -/
structure DNode where
  shape : DShape
  metadata : Option DMeta := none
  options : Option (List String) := none
deriving DecidableEq, Repr

/-- An `Edge` of the diagram model. -/
structure DEdge where
  source : Option String := none
  target : Option String := none
deriving DecidableEq, Repr

/-- A `Group` of the diagram model. -/
structure DGroup where
  containedElements : List String := []
deriving DecidableEq, Repr

/-- The `Diagram` container (a bound collector is assumed, so every issue is
recorded through `add_result`; `allowedExternals` models
`allowed_externals.get_all_references()`). -/
structure DDiagram where
  nodes : List (String × DNode) := []
  edges : List (String × DEdge) := []
  groups : List (String × DGroup) := []
  allowedExternals : List String := []
deriving DecidableEq, Repr

/-- The truthiness chain `node.metadata and node.metadata.name`: the name, when
metadata is present and the name is a non-empty string. -/
def meta_name_truthy (n : DNode) : Option String :=
  match n.metadata with
  | some m =>
    match m.mname with
    | some s => if s.data.isEmpty then none else some s
    | none => none
  | none => none

/-- The falsiness of `node.options` for a list node (`not node.options`): `None`
or the empty list. -/
def options_falsy (o : Option (List String)) : Bool :=
  match o with
  | some l => l.isEmpty
  | none => true

/-- The `valid_referral_nodes` set of `Diagram.validate_structure`
(models/diagram.py lines 218-222): names of non-rhombus nodes with a truthy
`metadata.name`, together with all external references. -/
def valid_referral_nodes (d : DDiagram) : List String :=
  (d.nodes.filterMap (fun p =>
    match meta_name_truthy p.2 with
    | some s => if p.2.shape ≠ DShape.rhombus then some s else none
    | none => none)) ++ d.allowedExternals

/-- The `valid_source_ids` set of `Diagram.validate_structure`
(models/diagram.py lines 225-236): ids of non-list nodes plus all option ids of
list nodes with truthy options. -/
def valid_source_ids (d : DDiagram) : List String :=
  (d.nodes.filterMap (fun p => if p.2.shape ≠ DShape.list then some p.1 else none)) ++
    (d.nodes.filterMap (fun p =>
      if p.2.shape = DShape.list then
        match p.2.options with
        | some l => if l.isEmpty then none else some l
        | none => none
      else none)).flatten

/-- `Diagram.validate_structure` (models/diagram.py lines 214-323) with a bound
validation collector: the sequence of `ValidationResult`s it adds, in source
order (edge sources, then groups, then list options, then rhombus references).
The rhombus branch keeps the source's double negation
`not node.metadata.name not in valid_referral_nodes` verbatim. -/
def validate_structure_results (d : DDiagram) : List ValidationResult :=
  let validReferral := valid_referral_nodes d
  let validSources := valid_source_ids d
  let groupIds := d.groups.map Prod.fst
  (d.edges.flatMap (fun p =>
    match p.2.source with
    | some src =>
      if src.data.isEmpty then []
      else if groupIds.contains src then
        [{ severity := .error,
           message := "Edge '" ++ p.1 ++ "' has invalid source '" ++ src ++ "' (a group).",
           elementId := some p.1, elementType := some "Edge", fieldName := some "source" }]
      else if !validSources.contains src then
        [{ severity := .error,
           message := "Edge origins from an invalid source '" ++ src ++ "'.",
           elementId := some p.1, elementType := some "Edge", fieldName := some "source" }]
      else []
    | none => [])) ++
  (d.groups.flatMap (fun p =>
    if p.2.containedElements.isEmpty then
      [{ severity := .error,
         message := "Group " ++ p.1 ++ " must contain at least one element",
         elementId := some p.1, elementType := some "Group", fieldName := none }]
    else [])) ++
  (d.nodes.flatMap (fun p =>
    if p.2.shape = DShape.list ∧ options_falsy p.2.options then
      [{ severity := .error,
         message := "List node " ++ p.1 ++ " must have at least one option",
         elementId := some p.1, elementType := some "Node", fieldName := some "options" }]
    else [])) ++
  (d.nodes.flatMap (fun p =>
    if p.2.shape = DShape.rhombus then
      match meta_name_truthy p.2 with
      | none =>
        [{ severity := .error,
           message := "Rhombus node " ++ p.1 ++ " must reference another node",
           elementId := some p.1, elementType := some "Node",
           fieldName := some "metadata.name" }]
      | some name =>
        if !(!(validReferral.contains name)) then
          [{ severity := .error,
             message := "Rhombus node " ++ p.1 ++ " references non-existent node " ++ name,
             elementId := some p.1, elementType := some "Node",
             fieldName := some "metadata.name" }]
        else []
    else []))

/-- A diagram whose rhombus `r1` names `missing`, which no other node and no
external reference carries. -/
def unresolvedRhombusDiagram : DDiagram :=
  { nodes := [("q1", { shape := .rectangle, metadata := some { mname := some "fever" } }),
              ("r1", { shape := .rhombus, metadata := some { mname := some "missing" } })] }

/-- A diagram whose rhombus `r2` names `fever`, which the rectangle `q1` carries. -/
def resolvedRhombusDiagram : DDiagram :=
  { nodes := [("q1", { shape := .rectangle, metadata := some { mname := some "fever" } }),
              ("r2", { shape := .rhombus, metadata := some { mname := some "fever" } })] }

/-- C2: whole-model validation is claimed to report an ERROR for a rhombus exactly
when its `metadata.name` resolves neither to another node's name nor to an
external reference — but the double negation in models/diagram.py line 311
(`elif not node.metadata.name not in valid_referral_nodes`) inverts the test: the
unresolved name `missing` produces no issue at all, while the resolved name
`fever` produces the "references non-existent node" ERROR. -/
theorem rhombus_reference_check_inverted :
    (valid_referral_nodes unresolvedRhombusDiagram).contains "missing" = false ∧
    validate_structure_results unresolvedRhombusDiagram = [] ∧
    (valid_referral_nodes resolvedRhombusDiagram).contains "fever" = true ∧
    validate_structure_results resolvedRhombusDiagram =
      [{ severity := .error,
         message := "Rhombus node r2 references non-existent node fever",
         elementId := some "r2", elementType := some "Node",
         fieldName := some "metadata.name" }] := by
  refine ⟨by decide, by decide, by decide, by decide⟩

/-! ## Edge endpoint validation and ingestion (models/diagram.py, core/parser.py,
utils/edge_error_handler.py) -/

/-- The three `PydanticCustomError` kinds of `Edge.validate_endpoints`
(models/diagram.py lines 167-199). -/
inductive EdgeEndpointErr where
  | sourceMissing
  | targetMissing
  | ghostEdge
deriving DecidableEq, Repr

/-- `Edge.validate_endpoints` (models/diagram.py lines 167-199): an endpoint is
"missing" when it is `None` or empty (Python truthiness). -/
def validate_endpoints (source target : Option String) : Except EdgeEndpointErr Unit :=
  if !py_truthy source && py_truthy target then .error .sourceMissing
  else if py_truthy source && !py_truthy target then .error .targetMissing
  else if !py_truthy source && !py_truthy target then .error .ghostEdge
  else .ok ()

/-- An edge cell as `_create_edge` (core/parser.py lines 351-377) reads it. -/
structure PEdge where
  eid : String
  elabel : String := ""
  source : Option String := none
  target : Option String := none
deriving DecidableEq, Repr

/-- `EdgeValidationErrorHandler.handle_edge_error` dispatch
(utils/edge_error_handler.py lines 14-66): each error kind adds exactly one
result — `ghost-edge` at WARNING, the single-missing-endpoint kinds at ERROR
(their messages also carry context about the surviving endpoint, which does not
affect any claim). -/
def handle_edge_error (err : EdgeEndpointErr) (edgeId : String) : List ValidationResult :=
  match err with
  | .ghostEdge =>
    [{ severity := .warning,
       message := "Ghost edge found where source and target are missing. Edge gets ignored.",
       elementId := some edgeId, elementType := some "Edge", fieldName := some "endpoints" }]
  | .targetMissing =>
    [{ severity := .error, message := "Edge has no target.",
       elementId := some edgeId, elementType := some "Edge", fieldName := some "target" }]
  | .sourceMissing =>
    [{ severity := .error, message := "Edge has no source.",
       elementId := some edgeId, elementType := some "Edge", fieldName := some "source" }]

/-- `DrawIoParser._create_edge` (core/parser.py lines 351-377): a valid edge is
returned; a validation failure returns `None` after routing the error through the
edge error handler. -/
def create_edge (c : PEdge) : Option PEdge × List ValidationResult :=
  match validate_endpoints c.source c.target with
  | .ok _ => (some c, [])
  | .error err => (none, handle_edge_error err c.eid)

/-- One step of `DrawIoParser._parse_edges` (core/parser.py lines 179-185): the
edge is added to `diagram.edges` only when `_create_edge` succeeded. -/
def parse_edge_into (edges : List (String × PEdge)) (c : PEdge) :
    List (String × PEdge) × List ValidationResult :=
  match create_edge c with
  | (some e, issues) => (edges ++ [(e.eid, e)], issues)
  | (none, issues) => (edges, issues)

/-- The edge step of `DAGConverter._initial_conversion` (core/graph_converter.py
lines 97-102): only diagram edges with truthy source and target reach the
compiled graph (as `(source, target, id, label)`). -/
def initial_conversion_edges (edges : List (String × PEdge)) :
    List (String × String × String × String) :=
  edges.filterMap (fun p =>
    if py_truthy p.2.source && py_truthy p.2.target then
      some (p.2.source.getD "", p.2.target.getD "", p.1, p.2.elabel)
    else none)

/-- C7: an edge element with neither source nor target (a ghost edge) is never
added to the diagram's edge map — hence never to the compiled graph, whose edges
are drawn from that map — and ingestion records exactly one WARNING for it. -/
theorem ghost_edge_rejected (edges : List (String × PEdge)) (c : PEdge)
    (hs : py_truthy c.source = false) (ht : py_truthy c.target = false) :
    parse_edge_into edges c =
      (edges,
       [{ severity := .warning,
          message := "Ghost edge found where source and target are missing. Edge gets ignored.",
          elementId := some c.eid, elementType := some "Edge",
          fieldName := some "endpoints" }]) ∧
    severity_count (parse_edge_into edges c).2 .warning = 1 ∧
    severity_count (parse_edge_into edges c).2 .error = 0 ∧
    initial_conversion_edges (parse_edge_into edges c).1 = initial_conversion_edges edges := by
  have hv : validate_endpoints c.source c.target = .error .ghostEdge := by
    simp [validate_endpoints, hs, ht]
  refine ⟨?_, ?_, ?_, ?_⟩ <;>
    simp [parse_edge_into, create_edge, hv, handle_edge_error, severity_count]

/-- Witness for C7: the concrete ghost edge `e9` with both endpoints absent. -/
theorem ghost_edge_rejected_witness :
    parse_edge_into [] { eid := "e9", source := none, target := none } =
      ([],
       [{ severity := .warning,
          message := "Ghost edge found where source and target are missing. Edge gets ignored.",
          elementId := some "e9", elementType := some "Edge",
          fieldName := some "endpoints" }]) ∧
    severity_count (parse_edge_into [] { eid := "e9", source := none, target := none }).2
      .warning = 1 ∧
    severity_count (parse_edge_into [] { eid := "e9", source := none, target := none }).2
      .error = 0 ∧
    initial_conversion_edges
        (parse_edge_into [] { eid := "e9", source := none, target := none }).1 =
      initial_conversion_edges [] :=
  ghost_edge_rejected [] { eid := "e9", source := none, target := none } (by decide) (by decide)

/-! ## General behavior of the numeric-condition parser (claim C4, amended) -/

/-- A digit is not regex whitespace. -/
theorem py_space_of_digit {c : Char} (h : c.isDigit = true) : py_space c = false := by
  simp only [py_space, decide_eq_false_iff_not]
  rintro (rfl | rfl | rfl | rfl | rfl | rfl) <;> exact absurd h (by decide)

/-- A digit is not `'='`. -/
theorem ne_eq_char_of_digit {c : Char} (h : c.isDigit = true) : c ≠ '=' := by
  rintro rfl
  exact absurd h (by decide)

/-- `dropWhile` passes over a block of satisfied elements. -/
theorem dropWhile_append_of_all {p : Char → Bool} :
    ∀ {xs : List Char}, (∀ c ∈ xs, p c = true) →
      ∀ ys : List Char, (xs ++ ys).dropWhile p = ys.dropWhile p := by
  intro xs
  induction xs with
  | nil => intro _ ys; simp
  | cons x xs ih =>
    intro h ys
    have hx : p x = true := h x (by simp)
    simp only [List.cons_append, List.dropWhile_cons, hx, if_true]
    exact ih (fun c hc => h c (by simp [hc])) ys

/-- `dropWhile` keeps a list whose head fails the predicate. -/
theorem dropWhile_of_head_false {p : Char → Bool} {d : Char} {t : List Char}
    (h : p d = false) : (d :: t).dropWhile p = d :: t := by
  simp [List.dropWhile_cons, h]

/-- `takeWhile` swallows a block of satisfied elements and stops at a failing one. -/
theorem takeWhile_append_stop {p : Char → Bool} :
    ∀ {xs : List Char}, (∀ c ∈ xs, p c = true) →
      ∀ {y : Char}, p y = false → ∀ t : List Char,
        (xs ++ y :: t).takeWhile p = xs := by
  intro xs
  induction xs with
  | nil => intro _ y hy t; simp [List.takeWhile_cons, hy]
  | cons x xs ih =>
    intro h y hy t
    have hx : p x = true := h x (by simp)
    simp only [List.cons_append, List.takeWhile_cons, hx, if_true]
    rw [ih (fun c hc => h c (by simp [hc])) hy t]

/-- `takeWhile` keeps an entirely satisfied list. -/
theorem takeWhile_of_all {p : Char → Bool} :
    ∀ {xs : List Char}, (∀ c ∈ xs, p c = true) → xs.takeWhile p = xs := by
  intro xs
  induction xs with
  | nil => intro _; rfl
  | cons x xs ih =>
    intro h
    have hx : p x = true := h x (by simp)
    simp only [List.takeWhile_cons, hx, if_true]
    rw [ih (fun c hc => h c (by simp [hc]))]

/-- A digit string of `'0'`s denotes zero. -/
theorem digits_to_nat_zeros : ∀ {fs : List Char}, (∀ c ∈ fs, c = '0') →
    digits_to_nat fs = 0 := by
  intro fs
  induction fs with
  | nil => intro _; rfl
  | cons c t ih =>
    intro h
    have hc : c = '0' := h c (by simp)
    subst hc
    have : digits_to_nat ('0' :: t) = digits_to_nat t := rfl
    rw [this]
    exact ih (fun c hc => h c (by simp [hc]))

/-- `parse_value` on a pure digit run yields the denoted natural number. -/
theorem parse_value_digits {ds : List Char} (h1 : ds ≠ [])
    (h2 : ∀ c ∈ ds, c.isDigit = true) :
    parse_value ds = some ((digits_to_nat ds : ℚ)) := by
  have htake : ds.takeWhile (fun c => c.isDigit) = ds := takeWhile_of_all h2
  unfold parse_value
  rw [htake]
  simp only [List.isEmpty_eq_true, h1, if_false, List.drop_length]

/-- `parse_value` on digits followed by `.` and an all-zero fraction still yields
the integer part (the fraction contributes zero). -/
theorem parse_value_digits_dot_zeros {ds fs : List Char} (h1 : ds ≠ [])
    (h2 : ∀ c ∈ ds, c.isDigit = true) (h3 : fs ≠ []) (h4 : ∀ c ∈ fs, c = '0') :
    parse_value (ds ++ '.' :: fs) = some ((digits_to_nat ds : ℚ)) := by
  have hfsd : ∀ c ∈ fs, c.isDigit = true := by
    intro c hc; rw [h4 c hc]; decide
  have htake : (ds ++ '.' :: fs).takeWhile (fun c => c.isDigit) = ds :=
    takeWhile_append_stop h2 (by decide) fs
  unfold parse_value
  rw [htake]
  simp only [List.isEmpty_eq_true, h1, if_false, List.drop_left]
  rw [takeWhile_of_all hfsd]
  simp only [List.isEmpty_eq_true, h3, if_false]
  rw [digits_to_nat_zeros h4]
  norm_num

/-- `trailing_number` over optional spaces followed by the numeric literal. -/
theorem trailing_number_eval {sp ds frac : List Char}
    (hsp : ∀ c ∈ sp, c = ' ') (h1 : ds ≠ []) (h2 : ∀ c ∈ ds, c.isDigit = true)
    (hfrac : frac = [] ∨ ∃ fs, frac = '.' :: fs ∧ fs ≠ [] ∧ ∀ c ∈ fs, c = '0') :
    trailing_number (sp ++ ds ++ frac) = some ((digits_to_nat ds : ℚ)) := by
  obtain ⟨d, ds', rfl⟩ : ∃ d ds', ds = d :: ds' := by
    cases ds with
    | nil => exact absurd rfl h1
    | cons d ds' => exact ⟨d, ds', rfl⟩
  have hd : py_space d = false := py_space_of_digit (h2 d (by simp))
  have hspace : ∀ c ∈ sp, py_space c = true := by
    intro c hc; rw [hsp c hc]; decide
  unfold trailing_number
  rw [List.append_assoc, dropWhile_append_of_all hspace,
    show (d :: ds') ++ frac = d :: (ds' ++ frac) from rfl,
    dropWhile_of_head_false hd]
  rcases hfrac with rfl | ⟨fs, rfl, hfs1, hfs2⟩
  · rw [List.append_nil]
    exact parse_value_digits h1 h2
  · exact parse_value_digits_dot_zeros h1 h2 hfs1 hfs2

/-- `try_op_at` at a position whose character cannot start the operator
alternation fails. -/
theorem try_op_at_none {c : Char} (hc : op_class1 c = false) (l : List Char) :
    try_op_at (c :: l) = none := by
  have hlt : ¬(c = '<' ∨ c = '>') := by
    simp only [op_class1, decide_eq_false_iff_not] at hc
    rintro (rfl | rfl) <;> exact hc (by simp)
  cases l with
  | nil => simp [try_op_at, hlt]
  | cons c2 t =>
    have : ¬(c2 = '=' ∧ op_class1 c) := by
      rintro ⟨_, h⟩; rw [hc] at h; exact Bool.false_ne_true h
    simp [try_op_at, this, hlt]

/-- `find_numeric` passes over a prefix free of operator-start characters. -/
theorem find_numeric_skip : ∀ (p : List Char), (∀ c ∈ p, op_class1 c = false) →
    ∀ l : List Char, find_numeric (p ++ l) = find_numeric l := by
  intro p
  induction p with
  | nil => intro _ l; rfl
  | cons c p' ih =>
    intro h l
    have hc : op_class1 c = false := h c (by simp)
    show find_numeric (c :: (p' ++ l)) = find_numeric l
    rw [find_numeric, try_op_at_none hc]
    exact ih (fun c hc => h c (by simp [hc])) l

/-- `try_op_at` recognizes a two-character operator followed by a parseable
number. -/
theorem try_op_at_two {c : Char} (hc : op_class1 c = true) {t : List Char} {v : ℚ}
    (ht : trailing_number t = some v) :
    try_op_at (c :: '=' :: t) = some (String.mk [c, '='], v) := by
  simp [try_op_at, hc, ht]

/-- `try_op_at` recognizes a one-character operator (`<` or `>`) when the next
character is not `=` and a parseable number follows. -/
theorem try_op_at_one {c : Char} (hc : c = '<' ∨ c = '>') {d : Char} (hd : d ≠ '=')
    {t : List Char} {v : ℚ} (ht : trailing_number (d :: t) = some v) :
    try_op_at (c :: d :: t) = some (String.mk [c], v) := by
  have : ¬(d = '=' ∧ op_class1 c) := by rintro ⟨rfl, _⟩; exact hd rfl
  simp [try_op_at, this, hc, ht]

/-- `String.mk` projects to its character list. -/
theorem string_mk_data (l : List Char) : (String.mk l).data = l := rfl

/-- `find_numeric` at the operator position of a well-formed condition tail. -/
theorem find_numeric_at_op (op : String)
    (hop : op = "!=" ∨ op = ">=" ∨ op = "<=" ∨ op = "<" ∨ op = ">")
    {sp ds frac : List Char}
    (hsp : ∀ c ∈ sp, c = ' ') (h1 : ds ≠ []) (h2 : ∀ c ∈ ds, c.isDigit = true)
    (hfrac : frac = [] ∨ ∃ fs, frac = '.' :: fs ∧ fs ≠ [] ∧ ∀ c ∈ fs, c = '0') :
    find_numeric (op.data ++ (sp ++ ds ++ frac)) =
      some (op, ((digits_to_nat ds : ℚ))) := by
  have ht : trailing_number (sp ++ ds ++ frac) = some ((digits_to_nat ds : ℚ)) :=
    trailing_number_eval hsp h1 h2 hfrac
  have hhd : ∃ d t', sp ++ ds ++ frac = d :: t' ∧ d ≠ '=' := by
    cases sp with
    | nil =>
      cases ds with
      | nil => exact absurd rfl h1
      | cons d ds' =>
        exact ⟨d, ds' ++ frac, by simp, ne_eq_char_of_digit (h2 d (by simp))⟩
    | cons s sp' =>
      refine ⟨s, sp' ++ ds ++ frac, by simp, ?_⟩
      rw [hsp s (by simp)]
      decide
  obtain ⟨d, t', heq, hd⟩ := hhd
  rcases hop with rfl | rfl | rfl | rfl | rfl
  · show find_numeric ('!' :: '=' :: (sp ++ ds ++ frac)) = _
    rw [find_numeric, try_op_at_two (by decide) ht]
  · show find_numeric ('>' :: '=' :: (sp ++ ds ++ frac)) = _
    rw [find_numeric, try_op_at_two (by decide) ht]
  · show find_numeric ('<' :: '=' :: (sp ++ ds ++ frac)) = _
    rw [find_numeric, try_op_at_two (by decide) ht]
  · show find_numeric ('<' :: (sp ++ ds ++ frac)) = _
    rw [heq, find_numeric, try_op_at_one (Or.inl rfl) hd (heq ▸ ht)]
  · show find_numeric ('>' :: (sp ++ ds ++ frac)) = _
    rw [heq, find_numeric, try_op_at_one (Or.inr rfl) hd (heq ▸ ht)]

/-- `_parse_numeric_condition` on a label made of an operator-free prefix, a
recognized operator, optional spaces and an integer-denoting literal: the parse
succeeds with that operator and the integer value. -/
theorem parse_numeric_condition_eval (p sp ds frac : List Char) (op : String)
    (hop : op = "!=" ∨ op = ">=" ∨ op = "<=" ∨ op = "<" ∨ op = ">")
    (hp : ∀ c ∈ p, op_class1 c = false)
    (hsp : ∀ c ∈ sp, c = ' ')
    (h1 : ds ≠ []) (h2 : ∀ c ∈ ds, c.isDigit = true)
    (hfrac : frac = [] ∨ ∃ fs, frac = '.' :: fs ∧ fs ≠ [] ∧ ∀ c ∈ fs, c = '0') :
    parse_numeric_condition (String.mk (p ++ op.data ++ sp ++ ds ++ frac)) =
      some (op, .int (digits_to_nat ds)) := by
  unfold parse_numeric_condition
  rw [string_mk_data,
    show p ++ op.data ++ sp ++ ds ++ frac = p ++ (op.data ++ (sp ++ ds ++ frac)) by
      simp [List.append_assoc],
    find_numeric_skip p hp, find_numeric_at_op op hop hsp h1 h2 hfrac]
  simp

/-- C4 (amended): for a decision point referencing a `numeric` node, a decision
label consisting of an operator-free prefix, one of the recognized comparison
operators `!=`, `>=`, `<=`, `<`, `>`, optional spaces and a numeric literal
denoting a whole number (optionally with an all-zero fraction) parses to that
operator and the integer value; the resulting condition negates the operator via
the fixed table exactly when the edge label is (case-insensitively) "no"; and
whenever the parse fails the result is the fallback
`Condition(ref, "=", edge_label == "yes")`.  (A bare `=` is never recognized —
see the counterexample theorem.) -/
theorem numeric_decision_parse_and_negation (p sp ds frac : List Char) (op : String)
    (e : String) (ref : Option String)
    (hop : op = "!=" ∨ op = ">=" ∨ op = "<=" ∨ op = "<" ∨ op = ">")
    (hp : ∀ c ∈ p, op_class1 c = false)
    (hsp : ∀ c ∈ sp, c = ' ')
    (h1 : ds ≠ []) (h2 : ∀ c ∈ ds, c.isDigit = true)
    (hfrac : frac = [] ∨ ∃ fs, frac = '.' :: fs ∧ fs ≠ [] ∧ ∀ c ∈ fs, c = '0') :
    parse_numeric_condition (String.mk (p ++ op.data ++ sp ++ ds ++ frac)) =
      some (op, .int (digits_to_nat ds)) ∧
    calculate_decision_point_logic "numeric"
        (String.mk (p ++ op.data ++ sp ++ ds ++ frac)) e ref =
      some (.cvar ref (if py_lower e = "no" then negate_operator op else op)
        (.int (digits_to_nat ds))) ∧
    (∀ lbl : String, parse_numeric_condition lbl = none →
      calculate_decision_point_logic "numeric" lbl e ref =
        some (.cvar ref "=" (.bool (py_lower e = "yes")))) := by
  have hparse := parse_numeric_condition_eval p sp ds frac op hop hp hsp h1 h2 hfrac
  refine ⟨hparse, ?_, ?_⟩
  · simp only [calculate_decision_point_logic, hparse, if_true]
    rw [if_neg (by decide), if_neg (by decide), if_neg (by decide)]
  · intro lbl h
    simp only [calculate_decision_point_logic, h, if_true]
    rw [if_neg (by decide), if_neg (by decide), if_neg (by decide)]

/-- Witness for C4: the spec's own example — decision label "Age > 5" with edge
label "No" yields `Condition(ref, "<=", 5)`. -/
theorem numeric_decision_parse_and_negation_witness :
    parse_numeric_condition "Age > 5" = some (">", .int 5) ∧
    calculate_decision_point_logic "numeric" "Age > 5" "No" (some "ref") =
      some (.cvar (some "ref") "<=" (.int 5)) := by
  have h := numeric_decision_parse_and_negation ("Age ".data) [' '] ['5'] [] ">"
    "No" (some "ref") (by decide) (by decide) (by decide) (by decide) (by decide)
    (Or.inl rfl)
  exact ⟨h.1, h.2.1⟩

/-! ## Help/hint absorption pass (core/graph_converter.py `_simplify_help_hint`) -/

/-- A node of the working graph with the attributes the help/hint pass touches. -/
structure HNode where
  nid : String
  ntype : String
  nlabel : String := ""
  helpText : Option String := none
  hintText : Option String := none
deriving DecidableEq, Repr

/-- The working graph for the help/hint pass: nodes in insertion order and
directed edges as (source, target) pairs. -/
structure HHGraph where
  nodes : List HNode
  edges : List (String × String)
deriving DecidableEq, Repr

/-- The collection test `attrs.get("type") in ["help", "hint"]`. -/
def isHelpHint (n : HNode) : Bool :=
  n.ntype == "help" || n.ntype == "hint"

/-- Node lookup by id. -/
def HHGraph.find (g : HHGraph) (i : String) : Option HNode :=
  g.nodes.find? (fun n => n.nid == i)

/-- `self.graph.out_edges(help_id)` target list. -/
def HHGraph.outTargets (g : HHGraph) (i : String) : List String :=
  (g.edges.filter (fun e => e.1 == i)).map Prod.snd

/-- `self.graph.nodes[main_node][attr_name] = label` with
`attr_name = "help_text" if node_type == "help" else "hint_text"`. -/
def absorb_text (ty lbl : String) (m : HNode) : HNode :=
  if ty = "help" then { m with helpText := some lbl } else { m with hintText := some lbl }

/-- Read the attribute `absorb_text` writes for a given annotator type. -/
def text_attr (ty : String) (m : HNode) : Option String :=
  if ty = "help" then m.helpText else m.hintText

/-- The body of the loop of `_simplify_help_hint` (core/graph_converter.py
lines 542-561) for one collected help/hint node id: read the node's current type
and label, collect the targets of its outgoing edges; with no targets the node is
skipped; otherwise the label is written into every target's help/hint text
attribute and the node is removed together with its incident edges. -/
def help_hint_step (g : HHGraph) (i : String) : HHGraph :=
  match g.find i with
  | none => g
  | some n =>
    let ts := g.outTargets i
    if ts.isEmpty then g
    else
      { nodes := (g.nodes.map (fun m =>
          if ts.contains m.nid then absorb_text n.ntype n.nlabel m else m)).filter
            (fun m => m.nid != i),
        edges := g.edges.filter (fun e => e.1 != i && e.2 != i) }

/-- `DAGConverter._simplify_help_hint` (core/graph_converter.py lines 534-561):
collect all help/hint node ids up front, then process them in order.  The pass
never touches the validation collector, so it produces no validation results. -/
def simplify_help_hint (g : HHGraph) : HHGraph :=
  ((g.nodes.filter isHelpHint).map (fun n => n.nid)).foldl help_hint_step g

/-- A single help node with no edges at all. -/
def lonelyHelpGraph : HHGraph :=
  { nodes := [⟨"h1", "help", "Drink water", none, none⟩], edges := [] }

/-- C8 counterexample: a help node with zero outgoing edges is claimed to be
deleted and reported at WARNING, but `_simplify_help_hint` skips it: the pass
leaves the graph unchanged — the node survives — and (the pass never referencing
the validation collector) nothing is reported. -/
theorem help_hint_zero_out_edges_node_kept :
    simplify_help_hint lonelyHelpGraph = lonelyHelpGraph ∧
    (simplify_help_hint lonelyHelpGraph).find "h1" =
      some ⟨"h1", "help", "Drink water", none, none⟩ := by
  refine ⟨by decide, by decide⟩

/-- Writing then reading the same annotator type yields the written label. -/
theorem text_absorb_same (ty lbl : String) (m : HNode) :
    text_attr ty (absorb_text ty lbl m) = some lbl := by
  unfold text_attr absorb_text
  split <;> simp_all

/-- Writing one help/hint type leaves the other help/hint type's attribute
unchanged. -/
theorem text_absorb_other {ty ty' : String} (hy : ty = "help" ∨ ty = "hint")
    (hy' : ty' = "help" ∨ ty' = "hint")
    (hne : ty ≠ ty') (lbl : String) (m : HNode) :
    text_attr ty (absorb_text ty' lbl m) = text_attr ty m := by
  rcases hy' with rfl | rfl
  · simp [text_attr, absorb_text, hne]
  · have h : ty = "help" := by
      rcases hy with rfl | rfl
      · rfl
      · exact absurd rfl hne
    simp [text_attr, absorb_text, h]

/-- `absorb_text` changes only the text attributes. -/
theorem absorb_text_nid (ty lbl : String) (m : HNode) :
    (absorb_text ty lbl m).nid = m.nid := by
  unfold absorb_text; split <;> rfl

/-- `absorb_text` preserves the node type. -/
theorem absorb_text_ntype (ty lbl : String) (m : HNode) :
    (absorb_text ty lbl m).ntype = m.ntype := by
  unfold absorb_text; split <;> rfl

/-- `absorb_text` preserves the node label. -/
theorem absorb_text_nlabel (ty lbl : String) (m : HNode) :
    (absorb_text ty lbl m).nlabel = m.nlabel := by
  unfold absorb_text; split <;> rfl

/-- `find?` by id commutes with a map that preserves ids. -/
theorem find?_map_nid (φ : HNode → HNode) (hφ : ∀ m, (φ m).nid = m.nid)
    (j : String) :
    ∀ l : List HNode,
      (l.map φ).find? (fun m => m.nid == j) =
        (l.find? (fun m => m.nid == j)).map φ := by
  intro l
  induction l with
  | nil => rfl
  | cons x xs ih =>
    by_cases h : x.nid = j
    · simp [List.find?_cons, hφ, h]
    · have h1 : ((φ x).nid == j) = false := by simp [hφ, h]
      have h2 : (x.nid == j) = false := by simp [h]
      simp only [List.map_cons, List.find?_cons, h1, h2]
      exact ih

/-- `find?` by id passes through a filter that keeps every node with that id. -/
theorem find?_filter_keep (q : HNode → Bool) (j : String)
    (hq : ∀ m : HNode, m.nid = j → q m = true) :
    ∀ l : List HNode,
      (l.filter q).find? (fun m => m.nid == j) = l.find? (fun m => m.nid == j) := by
  intro l
  induction l with
  | nil => rfl
  | cons x xs ih =>
    by_cases h : x.nid = j
    · have hqx := hq x h
      rw [List.filter_cons, if_pos hqx, List.find?_cons_of_pos _ (by simp [h]),
        List.find?_cons_of_pos _ (by simp [h])]
    · by_cases hqx : q x = true
      · rw [List.filter_cons, if_pos hqx, List.find?_cons_of_neg _ (by simp [h]),
          List.find?_cons_of_neg _ (by simp [h])]
        exact ih
      · rw [List.filter_cons, if_neg (by simp [hqx]),
          List.find?_cons_of_neg _ (by simp [h])]
        exact ih

/-- After filtering away the id `i`, no node with id `i` can be found. -/
theorem find?_filter_ne (i : String) (l : List HNode) :
    (l.filter (fun m => m.nid != i)).find? (fun m => m.nid == i) = none := by
  rw [List.find?_eq_none]
  intro x hx
  have := (List.mem_filter.mp hx).2
  simp_all

/-- A filter implied by another filter can be dropped under it. -/
theorem filter_filter_of_imp {α : Type} (p q : α → Bool)
    (l : List α) (h : ∀ e ∈ l, p e = true → q e = true) :
    (l.filter q).filter p = l.filter p := by
  induction l with
  | nil => rfl
  | cons x xs ih =>
    have ih' := ih (fun e he hp => h e (by simp [he]) hp)
    by_cases hp : p x = true
    · have hq := h x (by simp) hp
      simp [List.filter_cons, hp, hq, ih']
    · simp only [Bool.not_eq_true] at hp
      by_cases hq : q x = true
      · simp [List.filter_cons, hp, hq, ih']
      · simp only [Bool.not_eq_true] at hq
        simp [List.filter_cons, hp, hq, ih']

/-- With unique ids, a member node is exactly what `find` returns at its id. -/
theorem find_of_mem_nodup {g : HHGraph}
    (hnd : (g.nodes.map (fun n => n.nid)).Nodup) {n : HNode} (hn : n ∈ g.nodes) :
    g.find n.nid = some n := by
  unfold HHGraph.find
  obtain ⟨l1, l2, heq⟩ := List.append_of_mem hn
  rw [heq] at hnd ⊢
  rw [List.find?_append]
  have h1 : l1.find? (fun m => m.nid == n.nid) = none := by
    rw [List.find?_eq_none]
    intro x hx
    simp only [beq_iff_eq]
    intro hxe
    rw [List.map_append, List.map_cons] at hnd
    have := (List.nodup_append.mp hnd).2.2
    exact this (List.mem_map_of_mem _ hx) (by simp [hxe])
  rw [h1]
  simp [List.find?_cons]

/-- Under the no-edge-into-help/hint invariant, a help/hint node's id is never an
out-target of any node. -/
theorem hh_not_target {g : HHGraph}
    (Hnt : ∀ e ∈ g.edges, ∀ m ∈ g.nodes, m.nid = e.2 → isHelpHint m = false)
    {j : String} {nj : HNode} (hfind : g.find j = some nj)
    (hHH : isHelpHint nj = true) (i' : String) :
    j ∉ g.outTargets i' := by
  intro hmem
  unfold HHGraph.outTargets at hmem
  obtain ⟨e, he, he2⟩ := List.mem_map.mp hmem
  have heE : e ∈ g.edges := (List.mem_filter.mp he).1
  have hjmem : nj ∈ g.nodes := List.mem_of_find?_eq_some hfind
  have hjid : nj.nid = j := by simpa using List.find?_some hfind
  have hfalse := Hnt e heE nj hjmem (by rw [hjid, he2])
  rw [hHH] at hfalse
  exact Bool.true_eq_false.mp hfalse

/-- The per-node update of `help_hint_step` preserves node ids. -/
theorem step_map_nid (ts : List String) (ty lbl : String) (m : HNode) :
    (if ts.contains m.nid then absorb_text ty lbl m else m).nid = m.nid := by
  by_cases h : m.nid ∈ ts <;> simp [h, absorb_text_nid]

/-- The per-node update of `help_hint_step` preserves node types. -/
theorem step_map_ntype (ts : List String) (ty lbl : String) (m : HNode) :
    (if ts.contains m.nid then absorb_text ty lbl m else m).ntype = m.ntype := by
  by_cases h : m.nid ∈ ts <;> simp [h, absorb_text_ntype]

/-- `help_hint_step` leaves untouched the record found at an id that is neither
the processed node nor one of its targets. -/
theorem step_find_other {g : HHGraph} {i j : String}
    (hne : j ≠ i) (hnt : j ∉ g.outTargets i) :
    (help_hint_step g i).find j = g.find j := by
  unfold help_hint_step
  cases hfi : g.find i with
  | none => rfl
  | some n =>
    by_cases hts : (g.outTargets i).isEmpty
    · simp [hts]
    · simp only [hts, Bool.false_eq_true, if_false]
      show HHGraph.find ⟨_, _⟩ j = g.find j
      unfold HHGraph.find
      simp only
      rw [find?_filter_keep _ j (fun m hm => by simp [hm, hne]),
        find?_map_nid _ (step_map_nid (g.outTargets i) n.ntype n.nlabel) j]
      cases hfj : g.nodes.find? (fun m => m.nid == j) with
      | none => rfl
      | some mj =>
        have hmj : mj.nid = j := by simpa using List.find?_some hfj
        simp [hmj, hnt]

/-- `help_hint_step` rewrites the record of each target of the processed node by
`absorb_text`. -/
theorem step_find_target {g : HHGraph} {i : String} {n : HNode}
    (hfi : g.find i = some n) (hts : (g.outTargets i).isEmpty = false)
    {t : String} (htmem : t ∈ g.outTargets i) (hti : t ≠ i) :
    (help_hint_step g i).find t = (g.find t).map (absorb_text n.ntype n.nlabel) := by
  unfold help_hint_step
  rw [hfi]
  simp only [hts, Bool.false_eq_true, if_false]
  show HHGraph.find ⟨_, _⟩ t = _
  unfold HHGraph.find
  simp only
  rw [find?_filter_keep _ t (fun m hm => by simp [hm, hti]),
    find?_map_nid _ (step_map_nid (g.outTargets i) n.ntype n.nlabel) t]
  cases hfj : g.nodes.find? (fun m => m.nid == t) with
  | none => rfl
  | some mt =>
    have hmt : mt.nid = t := by simpa using List.find?_some hfj
    simp [hmt, htmem]

/-- `help_hint_step` removes the processed node when it has targets. -/
theorem step_find_removed {g : HHGraph} {i : String} {n : HNode}
    (hfi : g.find i = some n) (hts : (g.outTargets i).isEmpty = false) :
    (help_hint_step g i).find i = none := by
  unfold help_hint_step
  rw [hfi]
  simp only [hts, Bool.false_eq_true, if_false]
  show HHGraph.find ⟨_, _⟩ i = none
  unfold HHGraph.find
  simp only
  exact find?_filter_ne i _

/-- `help_hint_step` never introduces a node id that was absent. -/
theorem step_find_none {g : HHGraph} {i j : String}
    (h : g.find j = none) : (help_hint_step g i).find j = none := by
  unfold help_hint_step
  cases hfi : g.find i with
  | none => exact h
  | some n =>
    by_cases hts : (g.outTargets i).isEmpty
    · simp [hts, h]
    · simp only [hts, Bool.false_eq_true, if_false]
      show HHGraph.find ⟨_, _⟩ j = none
      unfold HHGraph.find
      simp only
      rw [List.find?_eq_none]
      intro x hx
      obtain ⟨x0, hx0, hx0e⟩ := List.mem_map.mp (List.mem_filter.mp hx).1
      have hxid : x.nid = x0.nid := by
        rw [← hx0e]; exact step_map_nid _ _ _ x0
      unfold HHGraph.find at h
      rw [List.find?_eq_none] at h
      have := h x0 hx0
      simp only [beq_iff_eq] at this ⊢
      rw [hxid]
      exact this

/-- A fold of `help_hint_step` never resurrects an absent node id. -/
theorem fold_find_none (l : List String) :
    ∀ {g : HHGraph} {j : String}, g.find j = none →
      (l.foldl help_hint_step g).find j = none := by
  induction l with
  | nil => intro g j h; exact h
  | cons i l' ih => intro g j h; exact ih (step_find_none h)

/-- `help_hint_step` leaves the out-targets of every other node unchanged. -/
theorem step_outTargets {g : HHGraph} {i : String} {n : HNode}
    (Hnt : ∀ e ∈ g.edges, ∀ m ∈ g.nodes, m.nid = e.2 → isHelpHint m = false)
    (hfi : g.find i = some n) (hHH : isHelpHint n = true)
    {j : String} (hne : j ≠ i) :
    (help_hint_step g i).outTargets j = g.outTargets j := by
  unfold help_hint_step
  rw [hfi]
  by_cases hts : (g.outTargets i).isEmpty
  · simp [hts]
  · simp only [hts, Bool.false_eq_true, if_false]
    show HHGraph.outTargets ⟨_, _⟩ j = g.outTargets j
    unfold HHGraph.outTargets
    simp only
    rw [filter_filter_of_imp _ _ _ ?h]
    intro e he hej
    have he1 : e.1 = j := by simpa using hej
    have he2 : e.2 ≠ i := by
      intro habs
      exact hh_not_target Hnt hfi hHH e.1
        (List.mem_map.mpr ⟨e, List.mem_filter.mpr ⟨he, by simp⟩, habs⟩)
    simp [he1, hne, he2]

/-- A help/hint node without outgoing edges is skipped: the step is the identity. -/
theorem step_eq_self {g : HHGraph} {i : String}
    (h : (g.outTargets i).isEmpty = true) : help_hint_step g i = g := by
  unfold help_hint_step
  cases g.find i with
  | none => rfl
  | some n => simp [h]

/-- `help_hint_step` preserves the three structural invariants: unique node ids,
targets that exist, and no edge into a help/hint node. -/
theorem step_preserves_invariants {g : HHGraph} (i : String)
    (Hnd : (g.nodes.map (fun n => n.nid)).Nodup)
    (Hcl : ∀ e ∈ g.edges, ∃ m ∈ g.nodes, m.nid = e.2)
    (Hnt : ∀ e ∈ g.edges, ∀ m ∈ g.nodes, m.nid = e.2 → isHelpHint m = false) :
    (((help_hint_step g i).nodes.map (fun n => n.nid)).Nodup) ∧
    (∀ e ∈ (help_hint_step g i).edges, ∃ m ∈ (help_hint_step g i).nodes, m.nid = e.2) ∧
    (∀ e ∈ (help_hint_step g i).edges, ∀ m ∈ (help_hint_step g i).nodes,
      m.nid = e.2 → isHelpHint m = false) := by
  unfold help_hint_step
  cases hfi : g.find i with
  | none => exact ⟨Hnd, Hcl, Hnt⟩
  | some n =>
    by_cases hts : (g.outTargets i).isEmpty = true
    · simp only [hts, if_true]
      exact ⟨Hnd, Hcl, Hnt⟩
    · simp only [Bool.not_eq_true] at hts
      simp only [hts, Bool.false_eq_true, if_false]
      refine ⟨?_, ?_, ?_⟩
      · have hmapmap :
            ((g.nodes.map (fun m =>
              if (g.outTargets i).contains m.nid then absorb_text n.ntype n.nlabel m
              else m)).map (fun n => n.nid)) = g.nodes.map (fun n => n.nid) := by
          rw [List.map_map]
          exact List.map_congr_left (fun m _ => step_map_nid _ _ _ m)
        have hsub := List.Sublist.map (fun n : HNode => n.nid)
          (List.filter_sublist (l := g.nodes.map (fun m =>
            if (g.outTargets i).contains m.nid then absorb_text n.ntype n.nlabel m
            else m)) (p := fun m => m.nid != i))
        rw [hmapmap] at hsub
        exact Hnd.sublist hsub
      · intro e he
        have he' := List.mem_filter.mp he
        have heE : e ∈ g.edges := he'.1
        have he2 : e.2 ≠ i := by
          have h2 := he'.2
          simp only [Bool.and_eq_true, bne_iff_ne] at h2
          exact h2.2
        obtain ⟨m, hm, hmid⟩ := Hcl e heE
        refine ⟨(fun m =>
          if (g.outTargets i).contains m.nid then absorb_text n.ntype n.nlabel m
          else m) m, ?_, ?_⟩
        · apply List.mem_filter.mpr
          refine ⟨List.mem_map_of_mem _ hm, ?_⟩
          rw [show ((fun m : HNode =>
            if (g.outTargets i).contains m.nid then absorb_text n.ntype n.nlabel m
            else m) m).nid = m.nid from step_map_nid _ _ _ m]
          simp [hmid, he2]
        · rw [show ((fun m : HNode =>
            if (g.outTargets i).contains m.nid then absorb_text n.ntype n.nlabel m
            else m) m).nid = m.nid from step_map_nid _ _ _ m]
          exact hmid
      · intro e he m' hm' hm'id
        have heE : e ∈ g.edges := (List.mem_filter.mp he).1
        obtain ⟨m0, hm0, hm0e⟩ := List.mem_map.mp (List.mem_filter.mp hm').1
        have hty : isHelpHint m' = isHelpHint m0 := by
          rw [← hm0e]
          unfold isHelpHint
          rw [step_map_ntype]
        rw [hty]
        apply Hnt e heE m0 hm0
        rw [← hm0e] at hm'id
        rw [← hm'id]
        exact (step_map_nid _ _ _ m0).symm

/-- From the help/hint test to the two possible type strings. -/
theorem hh_type_cases {n : HNode} (h : isHelpHint n = true) :
    n.ntype = "help" ∨ n.ntype = "hint" := by
  unfold isHelpHint at h
  rcases Bool.or_eq_true_iff.mp h with h' | h' <;>
    [exact Or.inl (by simpa using h'); exact Or.inr (by simpa using h')]

/-- `absorb_text` does not change whether a node is help/hint typed. -/
theorem isHelpHint_absorb (ty lbl : String) (m : HNode) :
    isHelpHint (absorb_text ty lbl m) = isHelpHint m := by
  unfold isHelpHint
  rw [absorb_text_ntype]

/-- Behavior of the help/hint fold over a list of collected ids, by induction on
the remaining list: a processed node with targets disappears; a processed node
without targets, and any help/hint node not in the list, survives untouched; and
a non-help/hint node's help/hint text attribute of each annotator type reflects
its unique annotator of that type in the list, or stays unchanged when it has
none. -/
theorem help_hint_fold_spec (l : List String) :
    ∀ g : HHGraph,
      (g.nodes.map (fun n => n.nid)).Nodup →
      (∀ e ∈ g.edges, ∃ m ∈ g.nodes, m.nid = e.2) →
      (∀ e ∈ g.edges, ∀ m ∈ g.nodes, m.nid = e.2 → isHelpHint m = false) →
      (∀ i ∈ l, ∃ n, g.find i = some n ∧ isHelpHint n = true) →
      l.Nodup →
      ((∀ i ∈ l, g.outTargets i ≠ [] → (l.foldl help_hint_step g).find i = none) ∧
       (∀ i ∈ l, g.outTargets i = [] →
          (l.foldl help_hint_step g).find i = g.find i) ∧
       (∀ j nj, g.find j = some nj → isHelpHint nj = true → j ∉ l →
          (l.foldl help_hint_step g).find j = g.find j) ∧
       (∀ t mt, g.find t = some mt → isHelpHint mt = false →
          ∀ ty, ty = "help" ∨ ty = "hint" →
          (((∀ i ∈ l, ∀ n, g.find i = some n → n.ntype = ty → t ∉ g.outTargets i) →
             ∃ mt', (l.foldl help_hint_step g).find t = some mt' ∧
               text_attr ty mt' = text_attr ty mt) ∧
           (∀ i ∈ l, ∀ n, g.find i = some n → n.ntype = ty → t ∈ g.outTargets i →
             (∀ j ∈ l, ∀ nj, g.find j = some nj → nj.ntype = ty →
                t ∈ g.outTargets j → j = i) →
             ∃ mt', (l.foldl help_hint_step g).find t = some mt' ∧
               text_attr ty mt' = some n.nlabel)))) := by
  induction l with
  | nil =>
    intro g Hnd Hcl Hnt Hl Hlnd
    refine ⟨?_, ?_, ?_, ?_⟩
    · intro i hi; exact absurd hi (List.not_mem_nil i)
    · intro i hi; exact absurd hi (List.not_mem_nil i)
    · intro j nj _ _ _; rfl
    · intro t mt hft hmt ty hty
      refine ⟨fun _ => ⟨mt, hft, rfl⟩, ?_⟩
      intro i hi; exact absurd hi (List.not_mem_nil i)
  | cons i₀ l' ih =>
    intro g Hnd Hcl Hnt Hl Hlnd
    obtain ⟨n₀, hf0, hHH0⟩ := Hl i₀ (List.mem_cons_self i₀ l')
    have hi₀notin : i₀ ∉ l' := (List.nodup_cons.mp Hlnd).1
    have Hlnd' : l'.Nodup := (List.nodup_cons.mp Hlnd).2
    have hfold : (i₀ :: l').foldl help_hint_step g =
        l'.foldl help_hint_step (help_hint_step g i₀) := rfl
    by_cases hts : (g.outTargets i₀).isEmpty = true
    · -- the head node has no targets: the step is the identity
      have hgeq : help_hint_step g i₀ = g := step_eq_self hts
      have htseq : g.outTargets i₀ = [] := List.isEmpty_iff.mp hts
      have Hl' : ∀ j ∈ l', ∃ n, g.find j = some n ∧ isHelpHint n = true :=
        fun j hj => Hl j (List.mem_cons_of_mem _ hj)
      obtain ⟨ih1, ih2, ih3, ih4⟩ := ih g Hnd Hcl Hnt Hl' Hlnd'
      rw [hfold, hgeq]
      refine ⟨?_, ?_, ?_, ?_⟩
      · intro i hi hne
        rcases List.mem_cons.mp hi with rfl | hi'
        · exact absurd htseq hne
        · exact ih1 i hi' hne
      · intro i hi hempty
        rcases List.mem_cons.mp hi with rfl | hi'
        · exact ih3 i n₀ hf0 hHH0 hi₀notin
        · exact ih2 i hi' hempty
      · intro j nj hfj hHHj hnotin
        exact ih3 j nj hfj hHHj (fun h => hnotin (List.mem_cons_of_mem _ h))
      · intro t mt hft hmt ty hty
        obtain ⟨ihA, ihB⟩ := ih4 t mt hft hmt ty hty
        refine ⟨?_, ?_⟩
        · intro hno
          exact ihA (fun i hi n hfi hnty =>
            hno i (List.mem_cons_of_mem _ hi) n hfi hnty)
        · intro i hi n hfi hnty htmem huniq
          rcases List.mem_cons.mp hi with rfl | hi'
          · rw [hfi] at hf0
            rw [htseq] at htmem
            exact absurd htmem (List.not_mem_nil t)
          · exact ihB i hi' n hfi hnty htmem
              (fun j hj nj hfj hjty hjt =>
                huniq j (List.mem_cons_of_mem _ hj) nj hfj hjty hjt)
    · -- the head node has targets: it absorbs into them and is removed
      simp only [Bool.not_eq_true] at hts
      have htsne : g.outTargets i₀ ≠ [] := by
        intro h
        rw [h] at hts
        exact absurd hts (by decide)
      obtain ⟨Hnd', Hcl', Hnt'⟩ := step_preserves_invariants i₀ Hnd Hcl Hnt
      have hfind_hh : ∀ j nj, g.find j = some nj → isHelpHint nj = true → j ≠ i₀ →
          (help_hint_step g i₀).find j = g.find j := by
        intro j nj hfj hHHj hne
        exact step_find_other hne (hh_not_target Hnt hfj hHHj i₀)
      have Hl' : ∀ j ∈ l', ∃ n, (help_hint_step g i₀).find j = some n ∧
          isHelpHint n = true := by
        intro j hj
        obtain ⟨nj, hfj, hHHj⟩ := Hl j (List.mem_cons_of_mem _ hj)
        have hne : j ≠ i₀ := fun h => hi₀notin (h ▸ hj)
        exact ⟨nj, by rw [hfind_hh j nj hfj hHHj hne]; exact hfj, hHHj⟩
      have houtT : ∀ j, j ≠ i₀ →
          (help_hint_step g i₀).outTargets j = g.outTargets j :=
        fun j hne => step_outTargets Hnt hf0 hHH0 hne
      obtain ⟨ih1, ih2, ih3, ih4⟩ :=
        ih (help_hint_step g i₀) Hnd' Hcl' Hnt' Hl' Hlnd'
      rw [hfold]
      refine ⟨?_, ?_, ?_, ?_⟩
      · intro i hi hne
        rcases List.mem_cons.mp hi with rfl | hi'
        · exact fold_find_none l' (step_find_removed hf0 hts)
        · have hnei : i ≠ i₀ := fun h => hi₀notin (h ▸ hi')
          exact ih1 i hi' (by rw [houtT i hnei]; exact hne)
      · intro i hi hempty
        rcases List.mem_cons.mp hi with rfl | hi'
        · exact absurd hempty htsne
        · have hnei : i ≠ i₀ := fun h => hi₀notin (h ▸ hi')
          obtain ⟨ni, hfi, hHHi⟩ := Hl i (List.mem_cons_of_mem _ hi')
          have h1 := ih2 i hi' (by rw [houtT i hnei]; exact hempty)
          rw [h1, hfind_hh i ni hfi hHHi hnei]
      · intro j nj hfj hHHj hnotin
        have hne : j ≠ i₀ := fun h => hnotin (h ▸ List.mem_cons_self i₀ l')
        have hstep := hfind_hh j nj hfj hHHj hne
        have h1 := ih3 j nj (by rw [hstep]; exact hfj) hHHj
          (fun h => hnotin (List.mem_cons_of_mem _ h))
        rw [h1, hstep]
      · intro t mt hft hmt ty hty
        have hti₀ : t ≠ i₀ := by
          intro h
          subst h
          rw [hft] at hf0
          injection hf0 with hmt0
          rw [← hmt0] at hHH0
          rw [hmt] at hHH0
          exact absurd hHH0 (by decide)
        by_cases htmem0 : t ∈ g.outTargets i₀
        · -- t is one of the targets the head node annotates
          have hstept : (help_hint_step g i₀).find t =
              some (absorb_text n₀.ntype n₀.nlabel mt) := by
            rw [step_find_target hf0 hts htmem0 hti₀, hft]
            rfl
          obtain ⟨ihA, ihB⟩ := ih4 t (absorb_text n₀.ntype n₀.nlabel mt) hstept
            (by rw [isHelpHint_absorb]; exact hmt) ty hty
          have htransport_no : (∀ i ∈ i₀ :: l', ∀ n, g.find i = some n →
                n.ntype = ty → t ∉ g.outTargets i) →
              (∀ i ∈ l', ∀ n, (help_hint_step g i₀).find i = some n →
                n.ntype = ty → t ∉ (help_hint_step g i₀).outTargets i) := by
            intro hno i hi n hfi hnty
            obtain ⟨ni, hfgi, hHHi⟩ := Hl i (List.mem_cons_of_mem _ hi)
            have hnei : i ≠ i₀ := fun h => hi₀notin (h ▸ hi)
            rw [hfind_hh i ni hfgi hHHi hnei] at hfi
            rw [houtT i hnei]
            exact hno i (List.mem_cons_of_mem _ hi) n hfi hnty
          refine ⟨?_, ?_⟩
          · intro hno
            have hty0ne : n₀.ntype ≠ ty := by
              intro h
              exact hno i₀ (List.mem_cons_self i₀ l') n₀ hf0 h htmem0
            have htext : text_attr ty (absorb_text n₀.ntype n₀.nlabel mt) =
                text_attr ty mt :=
              text_absorb_other hty (hh_type_cases hHH0) (Ne.symm hty0ne) _ _
            obtain ⟨mt'', hfind'', htext''⟩ := ihA (htransport_no hno)
            exact ⟨mt'', hfind'', htext''.trans htext⟩
          · intro i hi n hfi hnty htmem huniq
            rcases List.mem_cons.mp hi with rfl | hi'
            · -- the unique annotator is the head node itself
              have hn0 : n = n₀ := by
                have h := hf0.symm.trans hfi
                exact (Option.some.inj h).symm
              subst hn0
              have htext : text_attr ty (absorb_text n.ntype n.nlabel mt) =
                  some n.nlabel := by
                rw [← hnty]
                exact text_absorb_same n.ntype n.nlabel mt
              have hnoann : ∀ j ∈ l', ∀ nj, (help_hint_step g i).find j = some nj →
                  nj.ntype = ty → t ∉ (help_hint_step g i).outTargets j := by
                intro j hj nj hfj hjty hjt
                obtain ⟨nj0, hfgj, hHHj⟩ := Hl j (List.mem_cons_of_mem _ hj)
                have hnej : j ≠ i := fun h => hi₀notin (h ▸ hj)
                rw [hfind_hh j nj0 hfgj hHHj hnej] at hfj
                rw [houtT j hnej] at hjt
                exact hnej (huniq j (List.mem_cons_of_mem _ hj) nj hfj hjty hjt)
              obtain ⟨mt'', hfind'', htext''⟩ := ihA hnoann
              exact ⟨mt'', hfind'', htext''.trans htext⟩
            · -- the unique annotator lies further down the list
              have hnei : i ≠ i₀ := fun h => hi₀notin (h ▸ hi')
              have hty0ne : n₀.ntype ≠ ty := by
                intro h
                exact hnei ((huniq i₀ (List.mem_cons_self i₀ l') n₀ hf0 h htmem0).symm)
              obtain ⟨ni, hfgi, hHHi⟩ := Hl i (List.mem_cons_of_mem _ hi')
              have huniq' : ∀ j ∈ l', ∀ nj, (help_hint_step g i₀).find j = some nj →
                  nj.ntype = ty → t ∈ (help_hint_step g i₀).outTargets j → j = i := by
                intro j hj nj hfj hjty hjt
                obtain ⟨nj0, hfgj, hHHj⟩ := Hl j (List.mem_cons_of_mem _ hj)
                have hnej : j ≠ i₀ := fun h => hi₀notin (h ▸ hj)
                rw [hfind_hh j nj0 hfgj hHHj hnej] at hfj
                rw [houtT j hnej] at hjt
                exact huniq j (List.mem_cons_of_mem _ hj) nj hfj hjty hjt
              exact ihB i hi' n
                (by rw [hfind_hh i ni hfgi hHHi hnei]; exact hfi) hnty
                (by rw [houtT i hnei]; exact htmem) huniq'
        · -- t is untouched by the head node's step
          have hstept : (help_hint_step g i₀).find t = some mt := by
            rw [step_find_other hti₀ htmem0]
            exact hft
          obtain ⟨ihA, ihB⟩ := ih4 t mt hstept hmt ty hty
          refine ⟨?_, ?_⟩
          · intro hno
            apply ihA
            intro i hi n hfi hnty
            obtain ⟨ni, hfgi, hHHi⟩ := Hl i (List.mem_cons_of_mem _ hi)
            have hnei : i ≠ i₀ := fun h => hi₀notin (h ▸ hi)
            rw [hfind_hh i ni hfgi hHHi hnei] at hfi
            rw [houtT i hnei]
            exact hno i (List.mem_cons_of_mem _ hi) n hfi hnty
          · intro i hi n hfi hnty htmem huniq
            rcases List.mem_cons.mp hi with rfl | hi'
            · exact absurd htmem htmem0
            · have hnei : i ≠ i₀ := fun h => hi₀notin (h ▸ hi')
              obtain ⟨ni, hfgi, hHHi⟩ := Hl i (List.mem_cons_of_mem _ hi')
              have huniq' : ∀ j ∈ l', ∀ nj, (help_hint_step g i₀).find j = some nj →
                  nj.ntype = ty → t ∈ (help_hint_step g i₀).outTargets j → j = i := by
                intro j hj nj hfj hjty hjt
                obtain ⟨nj0, hfgj, hHHj⟩ := Hl j (List.mem_cons_of_mem _ hj)
                have hnej : j ≠ i₀ := fun h => hi₀notin (h ▸ hj)
                rw [hfind_hh j nj0 hfgj hHHj hnej] at hfj
                rw [houtT j hnej] at hjt
                exact huniq j (List.mem_cons_of_mem _ hj) nj hfj hjty hjt
              exact ihB i hi' n
                (by rw [hfind_hh i ni hfgi hHHi hnei]; exact hfi) hnty
                (by rw [houtT i hnei]; exact htmem) huniq'

/-- C8 (amended): during the help/hint absorption pass — under the invariants the
classifier establishes (unique node ids, every edge target exists, and no edge
points into a help/hint node, since help/hint classification requires zero
incoming edges) — every help/hint node with at least one outgoing edge has its
label copied into each target's help/hint text attribute (stated here for a
target whose annotator of that type is unique) and is then deleted; a help/hint
node with zero outgoing edges is left in place untouched, and the pass reports
nothing — the source skips such nodes and never references the validation
collector. -/
theorem simplify_help_hint_spec (g : HHGraph)
    (Hnd : (g.nodes.map (fun n => n.nid)).Nodup)
    (Hcl : ∀ e ∈ g.edges, ∃ m ∈ g.nodes, m.nid = e.2)
    (Hnt : ∀ e ∈ g.edges, ∀ m ∈ g.nodes, m.nid = e.2 → isHelpHint m = false) :
    ∀ n ∈ g.nodes, isHelpHint n = true →
      ((g.outTargets n.nid = [] → (simplify_help_hint g).find n.nid = some n) ∧
       (g.outTargets n.nid ≠ [] → (simplify_help_hint g).find n.nid = none) ∧
       (∀ t ∈ g.outTargets n.nid,
          (∀ m ∈ g.nodes, isHelpHint m = true → m.ntype = n.ntype →
             t ∈ g.outTargets m.nid → m = n) →
          ∃ mt', (simplify_help_hint g).find t = some mt' ∧
            text_attr n.ntype mt' = some n.nlabel)) := by
  intro n hn hHH
  have hsimp : simplify_help_hint g =
      ((g.nodes.filter isHelpHint).map (fun n => n.nid)).foldl help_hint_step g := rfl
  have Hl : ∀ i ∈ (g.nodes.filter isHelpHint).map (fun n => n.nid),
      ∃ m, g.find i = some m ∧ isHelpHint m = true := by
    intro i hi
    obtain ⟨m, hm, rfl⟩ := List.mem_map.mp hi
    have hm' := List.mem_filter.mp hm
    exact ⟨m, find_of_mem_nodup Hnd hm'.1, hm'.2⟩
  have Hlnd : ((g.nodes.filter isHelpHint).map (fun n => n.nid)).Nodup := by
    have hsub := List.Sublist.map (fun n : HNode => n.nid)
      (List.filter_sublist (l := g.nodes) (p := isHelpHint))
    exact Hnd.sublist hsub
  obtain ⟨h1, h2, h3, h4⟩ :=
    help_hint_fold_spec ((g.nodes.filter isHelpHint).map (fun n => n.nid))
      g Hnd Hcl Hnt Hl Hlnd
  have hmem : n.nid ∈ (g.nodes.filter isHelpHint).map (fun n => n.nid) :=
    List.mem_map.mpr ⟨n, List.mem_filter.mpr ⟨hn, hHH⟩, rfl⟩
  have hfindn : g.find n.nid = some n := find_of_mem_nodup Hnd hn
  refine ⟨?_, ?_, ?_⟩
  · intro hempty
    rw [hsimp]
    exact (h2 n.nid hmem hempty).trans hfindn
  · intro hne
    rw [hsimp]
    exact h1 n.nid hmem hne
  · intro t ht huniq
    have hedge : ∃ e ∈ g.edges, e.1 = n.nid ∧ e.2 = t := by
      unfold HHGraph.outTargets at ht
      obtain ⟨e, he, he2⟩ := List.mem_map.mp ht
      exact ⟨e, (List.mem_filter.mp he).1,
        by simpa using (List.mem_filter.mp he).2, he2⟩
    obtain ⟨e, heE, he1, he2⟩ := hedge
    obtain ⟨mt, hmtmem, hmtid⟩ := Hcl e heE
    have hmtfind : g.find t = some mt := by
      rw [← he2, ← hmtid]
      exact find_of_mem_nodup Hnd hmtmem
    have hmtHH : isHelpHint mt = false := Hnt e heE mt hmtmem hmtid
    obtain ⟨hA, hB⟩ := h4 t mt hmtfind hmtHH n.ntype (hh_type_cases hHH)
    rw [hsimp]
    apply hB n.nid hmem n hfindn rfl ht
    intro j hj nj hfj hjty hjt
    have hjmem : nj ∈ g.nodes := List.mem_of_find?_eq_some hfj
    have hjid : nj.nid = j := by simpa using List.find?_some hfj
    have hjHH : isHelpHint nj = true := by
      obtain ⟨m', hm', rfl⟩ := List.mem_map.mp hj
      have hfm' := find_of_mem_nodup Hnd (List.mem_filter.mp hm').1
      rw [hfj] at hfm'
      injection hfm' with hh
      rw [hh]
      exact (List.mem_filter.mp hm').2
    have hthis := huniq nj hjmem hjHH hjty (by rw [hjid]; exact hjt)
    rw [← hjid, hthis]

/-- A help node annotating one question node. -/
def annotatedGraph : HHGraph :=
  { nodes := [⟨"h", "help", "Wash hands", none, none⟩,
              ⟨"q", "select_one", "Question", none, none⟩],
    edges := [("h", "q")] }

/-- Witness for C8: on the concrete graph the help node is removed and its label
arrives in the target's help text. -/
theorem simplify_help_hint_spec_witness :
    (simplify_help_hint annotatedGraph).find "h" = none ∧
    (∃ mt', (simplify_help_hint annotatedGraph).find "q" = some mt' ∧
      text_attr "help" mt' = some "Wash hands") := by
  have h := simplify_help_hint_spec annotatedGraph (by decide) (by decide) (by decide)
    ⟨"h", "help", "Wash hands", none, none⟩ (by decide) (by decide)
  exact ⟨h.2.1 (by decide), h.2.2 "q" (by decide) (by decide)⟩
